import Mathlib

/-!
Verification of the Epoch backend's substitution pipeline.

Shallow embedding of the Python sources under `backend/app`:
numbers are modelled as rationals (`ℚ`), Python dicts as ordered
association lists, and external collaborators (FlavorDB, RecipeDB, the
Gemini client, the sentence-transformer backend, the `json` library) as
oracle parameters.  Each definition follows one Python function; the
theorems at the end settle the frozen claims about the spec.
-/

namespace Epoch

/-! ## Python dict model

Python dicts preserve insertion order.  We model a numeric dict as an
ordered association list; `dget` is `d.get(k, default)`, `dset` is
`d[k] = v` (update in place when the key exists, append otherwise),
`dmem` is `k in d`. -/

abbrev DictQ := List (String × ℚ)

def dget (d : DictQ) (k : String) (default : ℚ) : ℚ :=
  match d.find? (fun p => p.1 == k) with
  | some p => p.2
  | none => default

def dmem (d : DictQ) (k : String) : Bool :=
  d.any (fun p => p.1 == k)

def dset (d : DictQ) (k : String) (v : ℚ) : DictQ :=
  if dmem d k then
    d.map (fun p => if p.1 == k then (k, v) else p)
  else
    d ++ [(k, v)]

/-! ## Python round

`round(x, nd)` in Python rounds to the nearest multiple of `10^-nd`,
ties to the even neighbour (banker's rounding). -/

def roundTiesEven (q : ℚ) : ℤ :=
  let f : ℤ := ⌊q⌋
  let frac : ℚ := q - f
  if frac < 1/2 then f
  else if 1/2 < frac then f + 1
  else if f % 2 = 0 then f else f + 1

def pyRound (q : ℚ) (nd : ℕ) : ℚ :=
  (roundTiesEven (q * 10 ^ nd) : ℚ) / 10 ^ nd

/-! ## Constants (`app/utils/constants.py`) -/

/-- `RATING_THRESHOLDS` from `constants.py`. -/
def RATING_THRESHOLDS : List (String × ℚ) :=
  [("Excellent", 80), ("Good", 60), ("Decent", 40), ("Bad", 20), ("Poor", 0)]

def ratingThreshold (name : String) : ℚ :=
  match RATING_THRESHOLDS.find? (fun p => p.1 == name) with
  | some p => p.2
  | none => 0

/-- `MACRO_TARGETS` from `constants.py` (percentage ranges). -/
def MACRO_TARGETS : List (String × (ℚ × ℚ)) :=
  [("protein_percent", (10, 35)), ("carbs_percent", (45, 65)),
   ("fat_percent", (20, 35))]

def macroTarget (name : String) : ℚ × ℚ :=
  match MACRO_TARGETS.find? (fun p => p.1 == name) with
  | some p => p.2
  | none => (0, 0)

/-- `NEGATIVE_FACTOR_THRESHOLDS` from `constants.py`. -/
def NEGATIVE_FACTOR_THRESHOLDS : DictQ :=
  [("sodium", 400), ("sugar", 25), ("saturated_fat", 10),
   ("trans_fat", 1/2), ("cholesterol", 100)]

def negThreshold (name : String) : ℚ := dget NEGATIVE_FACTOR_THRESHOLDS name 0

/-- `RDA_VALUES` from `constants.py`. -/
def RDA_VALUES : DictQ :=
  [("vitamin_a", 900), ("vitamin_c", 90), ("vitamin_d", 20),
   ("vitamin_e", 15), ("vitamin_k", 120), ("thiamin", 12/10),
   ("riboflavin", 13/10), ("niacin", 16), ("vitamin_b6", 17/10),
   ("folate", 400), ("vitamin_b12", 24/10),
   ("calcium", 1000), ("iron", 18), ("magnesium", 400),
   ("phosphorus", 700), ("potassium", 4700), ("zinc", 11),
   ("selenium", 55), ("copper", 9/10), ("manganese", 23/10)]

/-- `RDA_VALUES.get(name)` — `none` models a missing key. -/
def rdaValue (name : String) : Option ℚ :=
  (RDA_VALUES.find? (fun p => p.1 == name)).map (·.2)

/-! ## HealthScorer.assign_rating (`health_scorer.py`, lines 440-468) -/

def assignRating (score : ℚ) : String :=
  if score ≥ ratingThreshold "Excellent" then "Excellent"
  else if score ≥ ratingThreshold "Good" then "Good"
  else if score ≥ ratingThreshold "Decent" then "Decent"
  else if score ≥ ratingThreshold "Bad" then "Bad"
  else "Poor"

/-! ## HealthScore pydantic model (`models/health_score.py`) -/

structure HealthScoreM where
  score : ℚ
  rating : String
  deriving Repr, DecidableEq

/-- `HealthScore.validate_rating`: rating must be one of the five
categories. -/
def validRatings : List String := ["Excellent", "Good", "Decent", "Bad", "Poor"]

/-- Constructing a `HealthScore`: pydantic checks `0 ≤ score ≤ 100`,
`validate_rating`, then `validate_score_rating_consistency`
(`health_score.py`, lines 51-69).  `none` models a raised
`ValidationError`. -/
def mkHealthScore (score : ℚ) (rating : String) : Option HealthScoreM :=
  if ¬ (0 ≤ score ∧ score ≤ 100) then none
  else if ¬ (validRatings.contains rating) then none
  else if score ≥ 80 ∧ rating ≠ "Excellent" then none
  else if 60 ≤ score ∧ score < 80 ∧ rating ≠ "Good" then none
  else if 40 ≤ score ∧ score < 60 ∧ rating ≠ "Decent" then none
  else if 20 ≤ score ∧ score < 40 ∧ rating ≠ "Bad" then none
  else if score < 20 ∧ rating ≠ "Poor" then none
  else some ⟨score, rating⟩

/-- The fixed threshold buckets exactly as the claim words them:
`>=80 Excellent, >=60 Good, >=40 Decent, >=20 Bad, else Poor`. -/
def claimRatingBucket (s : ℚ) : String :=
  if s ≥ 80 then "Excellent"
  else if s ≥ 60 then "Good"
  else if s ≥ 40 then "Decent"
  else if s ≥ 20 then "Bad"
  else "Poor"

/-! ## HealthScorer weights (`health_scorer.py`, `__init__`) -/

def macroWeight : ℚ := 40
def microWeight : ℚ := 30
def negativeWeight : ℚ := -30

/-! ## calculate_percentage_of_calories (`utils/helpers.py`, lines 18-71) -/

def calorieFactors : DictQ :=
  [("protein", 4), ("carbs", 4), ("carbohydrates", 4), ("fat", 9)]

/-- `none` models a raised `ValueError` (calories ≤ 0 or unknown nutrient
type). -/
def calculatePercentageOfCalories (grams : ℚ) (ntype : String) (cal : ℚ) :
    Option ℚ :=
  if cal ≤ 0 then none
  else
    match calorieFactors.find? (fun p => p.1 == ntype.toLower) with
    | none => none
    | some p => some (pyRound (grams * p.2 / cal * 100) 2)

/-! ## HealthScorer scoring components (`health_scorer.py`) -/

/-- `HealthScorer._score_nutrient_range` (lines 272-312). -/
def scoreNutrientRange (value : ℚ) (targetRange : ℚ × ℚ) (maxPoints : ℚ) : ℚ :=
  let minVal := targetRange.1
  let maxVal := targetRange.2
  if minVal ≤ value ∧ value ≤ maxVal then maxPoints
  else
    let dt : ℚ × ℚ :=
      if value < minVal then (minVal - value, minVal * (2/10))
      else (value - maxVal, maxVal * (2/10))
    if dt.1 ≤ dt.2 then maxPoints * (1 - dt.1 / dt.2)
    else 0

/-- `HealthScorer.score_macronutrients` (lines 178-270).  The percentage
helper never raises here because the calories-positive guard has already
fired and the nutrient-type strings are in the factor table, so `.getD 0`
never supplies its default. -/
def scoreMacronutrients (calories protein carbs fat : ℚ) : ℚ :=
  if calories ≤ 0 then 0
  else
    let proteinPercent := (calculatePercentageOfCalories protein "protein" calories).getD 0
    let carbsPercent := (calculatePercentageOfCalories carbs "carbs" calories).getD 0
    let fatPercent := (calculatePercentageOfCalories fat "fat" calories).getD 0
    let proteinScore := scoreNutrientRange proteinPercent (macroTarget "protein_percent") 10
    let carbsScore := scoreNutrientRange carbsPercent (macroTarget "carbs_percent") 10
    let fatScore := scoreNutrientRange fatPercent (macroTarget "fat_percent") 10
    let calorieThreshold : ℚ := 500
    let calorieScore :=
      if calories ≤ calorieThreshold then 10
      else if calories ≤ calorieThreshold * (3/2) then
        10 * (1 - (calories - calorieThreshold) / (calorieThreshold * (1/2)))
      else 0
    pyRound (proteinScore + carbsScore + fatScore + calorieScore) 2

/-- The `micro_nutrition` argument: `{"vitamins": {...}, "minerals": {...}}`. -/
structure MicroData where
  vitamins : DictQ
  minerals : DictQ

/-- Python `{**a, **b}`: keys of `a` in order, values overridden by `b`,
new keys of `b` appended in order. -/
def dictMerge (a b : DictQ) : DictQ :=
  b.foldl (fun acc p => dset acc p.1 p.2) a

/-- `HealthScorer.score_micronutrients` (lines 314-377). -/
def scoreMicronutrients (microData : MicroData) : ℚ :=
  let allNutrients := dictMerge microData.vitamins microData.minerals
  let score := allNutrients.foldl
    (fun acc p =>
      match rdaValue p.1 with
      | none => acc
      | some rda =>
        if rda ≤ 0 then acc
        else
          let percentRda := p.2 / rda * 100
          if percentRda ≥ 100 then acc + 2
          else if percentRda ≥ 50 then acc + 1
          else acc)
    0
  pyRound (min score microWeight) 2

/-- `HealthScorer.score_negative_factors` (lines 379-438). -/
def scoreNegativeFactors (nutritionData : DictQ) : ℚ :=
  let p : ℚ := 0
  let p := if dget nutritionData "sodium" 0 > negThreshold "sodium" then p - 5 else p
  let p := if dget nutritionData "sugar" 0 > negThreshold "sugar" then p - 5 else p
  let p := if dget nutritionData "saturated_fat" 0 > negThreshold "saturated_fat"
           then p - 5 else p
  let p := if dget nutritionData "trans_fat" 0 > negThreshold "trans_fat"
           then p - 10 else p
  let p := if dget nutritionData "cholesterol" 0 > negThreshold "cholesterol"
           then p - 5 else p
  pyRound (max p negativeWeight) 2

/-- `HealthScorer._get_negative_factor_details` (lines 622-684): the list of
triggered negative factors, as (factor, penalty) pairs. -/
def getNegativeFactorDetails (nutritionData : DictQ) : List (String × ℚ) :=
  (if dget nutritionData "sodium" 0 > negThreshold "sodium"
   then [("sodium", (-5 : ℚ))] else []) ++
  (if dget nutritionData "sugar" 0 > negThreshold "sugar"
   then [("sugar", (-5 : ℚ))] else []) ++
  (if dget nutritionData "saturated_fat" 0 > negThreshold "saturated_fat"
   then [("saturated_fat", (-5 : ℚ))] else []) ++
  (if dget nutritionData "trans_fat" 0 > negThreshold "trans_fat"
   then [("trans_fat", (-10 : ℚ))] else []) ++
  (if dget nutritionData "cholesterol" 0 > negThreshold "cholesterol"
   then [("cholesterol", (-5 : ℚ))] else [])

/-- `HealthScorer.calculate_health_score` (lines 63-176), reduced to the
(score, rating) pair it stores in the returned `HealthScore`. -/
def calculateHealthScore (nutritionData : DictQ) (microNutrition : MicroData) :
    HealthScoreM :=
  let calories := dget nutritionData "calories" 0
  let protein := dget nutritionData "protein" 0
  let carbs := dget nutritionData "carbs" 0
  let fat := dget nutritionData "fat" 0
  let macroScore := scoreMacronutrients calories protein carbs fat
  let microScore := scoreMicronutrients microNutrition
  let negativeScore := scoreNegativeFactors nutritionData
  let rawScore := macroScore + microScore + negativeScore
  let maxPossible := macroWeight + microWeight
  let minPossible := negativeWeight
  let normalizedScore := (rawScore - minPossible) / (maxPossible - minPossible) * 100
  let finalScore := max 0 (min 100 normalizedScore)
  ⟨pyRound finalScore 2, assignRating finalScore⟩

/-! Regex engine: backtracking matcher with Python `re` priority order
(leftmost match; alternatives tried left first; greedy repetition tries
longer first), over ASCII text.  A match state is the previously consumed
character (for word-boundary tests) plus the remaining input. -/

inductive RE where
  | eps
  | chr (p : Char → Bool)
  | seq (a b : RE)
  | alt (a b : RE)
  | star (a : RE)
  | bnd
  deriving Inhabited

def isWordChar (c : Char) : Bool := c.isAlpha || c.isDigit || c == '_'

def isBoundary (prev : Option Char) (next : List Char) : Bool :=
  let w1 := match prev with | some c => isWordChar c | none => false
  let w2 := match next with | c :: _ => isWordChar c | [] => false
  w1 != w2

/-- All ways the pattern can match a prefix of `s`, in Python backtracking
priority order; each result is (last consumed char, remaining input). -/
def reMs : RE → Option Char → List Char → List (Option Char × List Char)
  | .eps, p, s => [(p, s)]
  | .chr _, _, [] => []
  | .chr f, _, c :: s => if f c then [(some c, s)] else []
  | .seq a b, p, s => (reMs a p s).flatMap (fun x => reMs b x.1 x.2)
  | .alt a b, p, s => reMs a p s ++ reMs b p s
  | .bnd, p, s => if isBoundary p s then [(p, s)] else []
  | .star a, p, s =>
    (((reMs a p s).filter (fun x => x.2.length < s.length)).attach.flatMap
      (fun x => reMs (.star a) x.1.1 x.1.2)) ++ [(p, s)]
  termination_by re _ s => (sizeOf re, s.length)
  decreasing_by
  · simp_wf; omega
  · simp_wf; omega
  · simp_wf; omega
  · simp_wf; omega
  · simp_wf; omega
  · rename_i x
    have hm := x.2
    have := (List.mem_filter.mp hm).2
    simp only [decide_eq_true_eq] at this
    exact Prod.Lex.right _ this

/-- The match Python's engine takes at this position, if any. -/
def matchHere (re : RE) (p : Option Char) (s : List Char) :
    Option (Option Char × List Char) :=
  (reMs re p s).head?

/-- `re.sub(pattern, repl, s)`: scan left to right, replace each
non-overlapping match.  (The guard on the match consuming at least one
character is a termination guard; none of the patterns used below can
match the empty string.) -/
def rsub (re : RE) (repl : List Char) : Option Char → List Char → List Char
  | _, [] => []
  | p, c :: rest =>
    match matchHere re p (c :: rest) with
    | some x =>
      if h : x.2.length < (c :: rest).length then repl ++ rsub re repl x.1 x.2
      else c :: rsub re repl (some c) rest
    | none => c :: rsub re repl (some c) rest
  termination_by _ s => s.length
  decreasing_by
  all_goals simp_all

def pySub (re : RE) (repl : List Char) (s : List Char) : List Char :=
  rsub re repl none s

/-! Pattern constructors -/

def rchr (c : Char) : RE := .chr (fun x => x == c)

def rstr (cs : List Char) : RE := cs.foldr (fun c acc => .seq (rchr c) acc) .eps

def rplus (a : RE) : RE := .seq a (.star a)

def ropt (a : RE) : RE := .alt a .eps

def raltList (l : List RE) : RE := l.foldr .alt (.chr (fun _ => false))

def isPySpace (c : Char) : Bool :=
  c == ' ' || c == '\t' || c == '\n' || c == '\r' ||
  c == Char.ofNat 11 || c == Char.ofNat 12

def isAzLower (c : Char) : Bool := 'a' ≤ c && c ≤ 'z'

def rdigit : RE := .chr Char.isDigit
def rws : RE := .chr isPySpace

/-! The concrete patterns of `normalize_ingredient_name`
(`utils/helpers.py`, lines 111-181). -/

/-- `\([^)]*\)` -/
def parenRE : RE :=
  .seq (rchr '(') (.seq (.star (.chr (fun c => !(c == ')')))) (rchr ')'))

/-- `(?:\/\s*\d+)` -/
def fracRE : RE := .seq (rchr '/') (.seq (.star rws) (rplus rdigit))

def unitWords : List String :=
  ["cup", "cups", "tablespoon", "tablespoons", "tbsp", "teaspoon",
   "teaspoons", "tsp", "ounce", "ounces", "oz", "pound", "pounds", "lb",
   "lbs", "gram", "grams", "g", "kilogram", "kilograms", "kg",
   "milliliter", "milliliters", "ml", "liter", "liters", "l", "pinch",
   "dash", "can", "cans", "package", "packages", "pkg"]

/-- `\b\d+\.?\d*\s*(?:\/\s*\d+)?\s*(?:cup|...|pkg)\b` -/
def quantityRE : RE :=
  .seq .bnd (.seq (rplus rdigit) (.seq (ropt (rchr '.')) (.seq (.star rdigit)
    (.seq (.star rws) (.seq (ropt fracRE) (.seq (.star rws)
      (.seq (raltList (unitWords.map (fun w => rstr w.toList))) .bnd)))))))

/-- `\b\d+\.?\d*\s*(?:\/\s*\d+)?\b` -/
def numberRE : RE :=
  .seq .bnd (.seq (rplus rdigit) (.seq (ropt (rchr '.')) (.seq (.star rdigit)
    (.seq (.star rws) (.seq (ropt fracRE) .bnd)))))

def prepWords : List String :=
  ["fresh", "frozen", "dried", "canned", "chopped", "diced", "minced",
   "sliced", "grated", "shredded", "ground", "whole", "raw", "cooked",
   "large", "small", "medium", "ripe", "boneless", "skinless",
   "organic", "extra virgin", "unsalted", "salted", "plain"]

/-- `\b<word>\b` -/
def prepRE (w : String) : RE := .seq .bnd (.seq (rstr w.toList) .bnd)

/-- `[^a-z\s-]` -/
def specialRE : RE :=
  .chr (fun c => !(isAzLower c || isPySpace c || c == '-'))

/-- `\s+` -/
def wsRE : RE := rplus rws

/-- `-+` -/
def hyphenRE : RE := rplus (rchr '-')

/-- Python `s.strip(" -")`. -/
def pyStrip (s : List Char) : List Char :=
  ((s.dropWhile (fun c => c == ' ' || c == '-')).reverse.dropWhile
    (fun c => c == ' ' || c == '-')).reverse

/-- The preparation-descriptor removal pass (the `for word in prep_words`
loop). -/
def prepPass (s : List Char) : List Char :=
  prepWords.foldl (fun acc w => pySub (prepRE w) [] acc) s

/-- `normalize_ingredient_name` (`utils/helpers.py`, lines 111-181). -/
def normalizeIngredientName (ingredient : String) : String :=
  if ingredient = "" then ""
  else
    let s0 := ingredient.toList.map Char.toLower
    let s1 := pySub parenRE [] s0
    let s2 := pySub quantityRE [] s1
    let s3 := pySub numberRE [] s2
    let s4 := prepPass s3
    let s5 := pySub specialRE [] s4
    let s6 := pySub wsRE [' '] s5
    let s7 := pySub hyphenRE ['-'] s6
    ⟨pyStrip s7⟩

/-- Reference form of run collapsing: every maximal run of characters
satisfying `pc` becomes the single character `r`.  Proved equal to
`pySub (rplus (.chr pc)) [r]` below; used to reason about the whitespace
and hyphen collapsing passes. -/
def collapseRuns (pc : Char → Bool) (r : Char) : List Char → List Char
  | [] => []
  | c :: rest =>
    if pc c then r :: collapseRuns pc r (rest.dropWhile pc)
    else c :: collapseRuns pc r rest
  termination_by s => s.length
  decreasing_by
  · have := List.length_le_of_sublist ((rest.dropWhile_suffix pc).sublist)
    simp only [List.length_cons]
    omega
  · simp

/-- The character class a normalized name can contain: lowercase ASCII
letters, spaces, hyphens. -/
def normChar (c : Char) : Bool := isAzLower c || c == ' ' || c == '-'

/-! ## String containment (Python `needle in haystack`) -/

def startsWithChars : List Char → List Char → Bool
  | [], _ => true
  | _ :: _, [] => false
  | a :: as, b :: bs => a == b && startsWithChars as bs

def containsChars (hay needle : List Char) : Bool :=
  match hay with
  | [] => needle.isEmpty
  | _ :: rest => startsWithChars needle hay || containsChars rest needle

/-- Python `needle in hay` on strings. -/
def strIn (needle hay : String) : Bool := containsChars hay.toList needle.toList

/-- Python `s.lower()` (ASCII model). -/
def pyLower (s : String) : String := ⟨s.toList.map Char.toLower⟩

/-! ## constants.py tables used by the swap engine -/

/-- `HEALTHY_SWAPS` from `constants.py`: category → original → alternatives. -/
def HEALTHY_SWAPS : List (String × List (String × List String)) :=
  [
   ("oil", [
     ("vegetable oil", ["olive oil", "avocado oil", "coconut oil"]),
     ("butter", ["ghee", "olive oil", "avocado", "coconut oil"]),
     ("margarine", ["olive oil", "avocado oil"]),
     ("shortening", ["coconut oil", "applesauce"]),
     ("lard", ["olive oil", "avocado oil"])
    ]),
   ("sweetener", [
     ("sugar", ["honey", "maple syrup", "stevia", "monk fruit"]),
     ("white sugar", ["coconut sugar", "date sugar", "honey"]),
     ("brown sugar", ["coconut sugar", "maple syrup", "date sugar"]),
     ("corn syrup", ["honey", "maple syrup", "agave nectar"]),
     ("high fructose corn syrup", ["honey", "maple syrup"])
    ]),
   ("dairy", [
     ("cream", ["coconut cream", "cashew cream"]),
     ("heavy cream", ["coconut cream", "cashew cream"]),
     ("milk", ["almond milk", "oat milk", "soy milk", "coconut milk"]),
     ("whole milk", ["almond milk", "oat milk", "low-fat milk"]),
     ("sour cream", ["greek yogurt", "coconut cream"]),
     ("cheese", ["nutritional yeast", "cashew cheese"])
    ]),
   ("grain", [
     ("white rice", ["brown rice", "quinoa", "cauliflower rice"]),
     ("white flour", ["whole wheat flour", "almond flour", "oat flour"]),
     ("all-purpose flour", ["whole wheat flour", "spelt flour"]),
     ("pasta", ["whole wheat pasta", "zucchini noodles", "soba noodles"]),
     ("white bread", ["whole wheat bread", "sourdough bread"])
    ]),
   ("protein", [
     ("ground beef", ["ground turkey", "ground chicken", "lentils"]),
     ("bacon", ["turkey bacon", "tempeh bacon"]),
     ("sausage", ["chicken sausage", "turkey sausage"])
    ]),
   ("condiment", [
     ("mayonnaise", ["greek yogurt", "avocado", "hummus"]),
     ("ketchup", ["tomato paste", "salsa"]),
     ("soy sauce", ["coconut aminos", "tamari"])
    ]),
   ("spice", [
     ("salt", ["herbs", "lemon juice", "garlic powder"]),
     ("seasoning salt", ["herb blend", "garlic powder"])
    ])
  ]

/-- `INGREDIENT_CATEGORY_KEYWORDS` from `constants.py`. -/
def INGREDIENT_CATEGORY_KEYWORDS : List (String × List String) :=
  [
   ("oil", ["oil", "butter", "ghee", "margarine", "shortening", "lard", "fat"]),
   ("sweetener", ["sugar", "honey", "syrup", "stevia", "sweetener", "molasses",
     "agave", "fructose", "glucose"]),
   ("dairy", ["milk", "cream", "cheese", "yogurt", "butter", "dairy"]),
   ("grain", ["rice", "flour", "bread", "pasta", "wheat", "oat", "quinoa",
     "barley", "grain"]),
   ("protein", ["chicken", "beef", "pork", "fish", "turkey", "lamb", "tofu",
     "tempeh", "egg", "bean", "lentil"]),
   ("vegetable", ["carrot", "broccoli", "spinach", "tomato", "onion", "garlic",
     "pepper", "lettuce", "cabbage", "kale", "vegetable"]),
   ("fruit", ["apple", "banana", "orange", "berry", "grape", "melon", "fruit"]),
   ("spice", ["salt", "pepper", "cumin", "paprika", "oregano", "basil",
     "thyme", "cinnamon", "spice", "herb"]),
   ("condiment", ["sauce", "ketchup", "mustard", "mayo", "mayonnaise",
     "dressing"])
  ]

/-- `categorize_ingredient` (`utils/helpers.py`, lines 74-108): first
category whose keyword list has a keyword contained in the lowercased
name, else "other". -/
def categorizeIngredient (ingredient : String) : String :=
  let lower := pyLower ingredient
  match INGREDIENT_CATEGORY_KEYWORDS.find?
      (fun p => p.2.any (fun kw => strIn kw lower)) with
  | some p => p.1
  | none => "other"

/-! ## SwapEngine (`services/swap_engine.py`) -/

/-- `SubstituteOption` dataclass (`swap_engine.py`, lines 30-62). -/
structure SubstituteOptionM where
  name : String
  flavorMatch : ℚ
  healthImprovement : ℚ
  category : String
  rankScore : ℚ
  explanation : String
  sharedMolecules : List String
  deriving Repr

/-- A molecule entry of a FlavorDB profile dict: `common_name` and `name`
keys, either possibly missing. -/
structure MoleculeD where
  common_name : Option String
  name : Option String

/-- `m.get("common_name") or m.get("name", "")` — missing or empty
common_name falls back to name. -/
def moleculeLabel (m : MoleculeD) : String :=
  match m.common_name with
  | some s => if s = "" then m.name.getD "" else s
  | none => m.name.getD ""

/-- A flavor-profile dict: `ingredient` and `molecules` keys. -/
structure FlavorProfileD where
  ingredient : String
  molecules : List MoleculeD

/-- The external collaborators of `SwapEngine`, as oracles.  A `none`
result of `calcSim`, `profile` or `pairings` models a raised exception
(caught by the engine); an empty `semantic` result models an unavailable
embedding backend (`compute_similarity_scores` returns `[]`). -/
structure SwapEnv where
  calcSim : String → String → Option ℚ
  profile : String → Option FlavorProfileD
  pairings : String → Option (List String)
  semantic : String → List String → List (String × ℚ)
  useSemanticRerank : Bool
  semanticWeight : ℚ

/-- Ranking weights set in `SwapEngine.__init__` (lines 102-108). -/
def SwapEnv.flavorWeight (env : SwapEnv) : ℚ :=
  if env.useSemanticRerank then 0.6 - env.semanticWeight else 0.6

def SwapEnv.healthWeight (_env : SwapEnv) : ℚ := 0.4

/-- The `improvement_estimates` dict of
`SwapEngine._estimate_health_improvement` (insertion order preserved). -/
def improvementEstimates : DictQ :=
  [("olive oil", 8.0),
   ("avocado oil", 8.0),
   ("coconut oil", 5.0),
   ("honey", 3.0),
   ("maple syrup", 3.0),
   ("stevia", 7.0),
   ("monk fruit", 7.0),
   ("almond milk", 6.0),
   ("oat milk", 5.0),
   ("coconut milk", 4.0),
   ("soy milk", 6.0),
   ("brown rice", 7.0),
   ("quinoa", 8.0),
   ("whole wheat flour", 6.0),
   ("almond flour", 7.0),
   ("oat flour", 6.0),
   ("default", 5.0)]

/-- `SwapEngine._estimate_health_improvement` (lines 390-462). -/
def estimateHealthImprovement (substituteIngredient : String)
    (currentScore : ℚ) : ℚ :=
  let normalized := normalizeIngredientName substituteIngredient
  let improvement :=
    match improvementEstimates.find? (fun p => strIn p.1 normalized) with
    | some p => p.2
    | none => dget improvementEstimates "default" 0
  let improvement :=
    if currentScore < 30 then improvement * 1.5
    else if currentScore < 50 then improvement * 1.2
    else if currentScore > 70 then improvement * 0.8
    else improvement
  min improvement (100.0 - currentScore)

/-- `SwapEngine._generate_swap_explanation` (lines 464-508).  The numeric
interpolations (`{flavor_match:.0f}` etc.) of the Python f-string are
abstracted away; the threshold-selected wording is kept. -/
def generateSwapExplanation (original substitute : String)
    (flavorMatch healthImprovement : ℚ) (sharedMolecules : List String) :
    String :=
  let flavorDesc :=
    if flavorMatch ≥ 80 then "very similar flavor profile"
    else if flavorMatch ≥ 60 then "similar flavor profile"
    else if flavorMatch ≥ 40 then "moderately similar flavor"
    else "different but complementary flavor"
  let healthDesc :=
    if healthImprovement ≥ 8 then "significantly healthier"
    else if healthImprovement ≥ 5 then "healthier"
    else if healthImprovement ≥ 3 then "slightly healthier"
    else "marginally healthier"
  let explanation := "Replace " ++ original ++ " with " ++ substitute ++
    " — " ++ flavorDesc ++ ", " ++ healthDesc ++ "."
  if sharedMolecules ≠ [] then
    explanation ++ " They share flavor molecule(s) (" ++
      String.intercalate ", " (sharedMolecules.take 5) ++
      "), preserving the taste you expect."
  else explanation

/-- Stable insertion (descending by rank_score), matching Python's stable
`list.sort(key=..., reverse=True)`. -/
def insertByRank (x : SubstituteOptionM) :
    List SubstituteOptionM → List SubstituteOptionM
  | [] => [x]
  | y :: ys =>
    if y.rankScore ≤ x.rankScore then x :: y :: ys else y :: insertByRank x ys

def sortByRankDesc (l : List SubstituteOptionM) : List SubstituteOptionM :=
  l.foldr insertByRank []

/-- Stable insertion sort on strings (Python `sorted`). -/
def insertStr (x : String) : List String → List String
  | [] => [x]
  | y :: ys => if x ≤ y then x :: y :: ys else y :: insertStr x ys

def sortStr (l : List String) : List String := l.foldr insertStr []

/-- `sorted(set(A) & set(B))` on lowercased molecule names. -/
def sortedSharedMolecules (a b : List String) : List String :=
  sortStr ((a.dedup).filter (fun m => b.contains m))

/-- One candidate step of `SwapEngine.rank_substitutes` (lines 293-359):
`none` models the skip on a raised FlavorDB exception or on the candidate
equalling the original. -/
def rankCandidate (env : SwapEnv) (originalName : String)
    (originalMolecules : List String) (currentHealthScore : ℚ)
    (candidate : String) : Option SubstituteOptionM :=
  if normalizeIngredientName candidate = normalizeIngredientName originalName
  then none
  else
    match env.calcSim originalName candidate, env.profile candidate with
    | some flavorMatch, some candProfile =>
      let candMolecules := candProfile.molecules.map moleculeLabel
      let sharedMolecules := sortedSharedMolecules
        ((originalMolecules.filter (fun m => m ≠ "")).map pyLower)
        ((candMolecules.filter (fun m => m ≠ "")).map pyLower)
      let healthImprovement :=
        estimateHealthImprovement candidate currentHealthScore
      let rankScore := flavorMatch * env.flavorWeight +
        healthImprovement * env.healthWeight
      let explanation := generateSwapExplanation originalName candidate
        flavorMatch healthImprovement sharedMolecules
      some {
        name := candidate,
        flavorMatch := flavorMatch,
        healthImprovement := healthImprovement,
        category := categorizeIngredient candidate,
        rankScore := rankScore,
        explanation := explanation,
        sharedMolecules := sharedMolecules.take 8 }
    | _, _ => none

/-- `SwapEngine.rank_substitutes` (lines 269-388). -/
def rankSubstitutes (env : SwapEnv) (candidates : List String)
    (targetFlavor : FlavorProfileD) (currentHealthScore : ℚ) :
    List SubstituteOptionM :=
  let originalName := targetFlavor.ingredient
  let originalMolecules := targetFlavor.molecules.map moleculeLabel
  let substituteOptions := candidates.filterMap
    (rankCandidate env originalName originalMolecules currentHealthScore)
  let substituteOptions :=
    if env.useSemanticRerank && !substituteOptions.isEmpty then
      let rankedSemantic :=
        env.semantic originalName (substituteOptions.map (·.name))
      if !rankedSemantic.isEmpty then
        substituteOptions.map (fun opt =>
          let semanticScore :=
            match rankedSemantic.find? (fun p => p.1 == opt.name) with
            | some p => p.2
            | none => 50.0
          { opt with rankScore := opt.flavorMatch * env.flavorWeight +
              opt.healthImprovement * env.healthWeight +
              semanticScore * env.semanticWeight })
      else substituteOptions
    else substituteOptions
  (sortByRankDesc substituteOptions).take 5

/-- De-duplication by normalized name keeping first occurrences (the
`seen`-set loops in `get_healthy_alternative_pool`). -/
def dedupByNorm (l : List String) : List String :=
  (l.foldl (fun (acc : List String × List String) a =>
    let na := normalizeIngredientName a
    if acc.2.contains na then acc else (acc.1 ++ [a], acc.2 ++ [na]))
    ([], [])).1

/-- `SwapEngine.get_healthy_alternative_pool` (lines 199-267). -/
def getHealthyAlternativePool (ingredientName : String)
    (ingredientCategory : String) : List String :=
  match HEALTHY_SWAPS.find? (fun p => p.1 == ingredientCategory) with
  | none => []
  | some catPair =>
    let categorySwaps := catPair.2
    match categorySwaps.find? (fun p => p.1 == ingredientName) with
    | some exact => exact.2
    | none =>
      let partial_ := (categorySwaps.filter (fun p =>
        strIn ingredientName p.1 || strIn p.1 ingredientName)).flatMap (·.2)
      if partial_ ≠ [] then dedupByNorm partial_
      else dedupByNorm (categorySwaps.flatMap (·.2))

/-- `SwapEngine.find_substitutes` (lines 116-197). -/
def findSubstitutes (env : SwapEnv) (riskyIngredient : String)
    (flavorProfile : FlavorProfileD) (currentHealthScore : ℚ)
    (recipeIngredients : Option (List String)) : List SubstituteOptionM :=
  let normalized := normalizeIngredientName riskyIngredient
  let category := categorizeIngredient normalized
  let candidates := getHealthyAlternativePool normalized category
  let candidates :=
    match env.pairings riskyIngredient with
    | none => candidates
    | some fdbPairings =>
      if fdbPairings ≠ [] then
        (fdbPairings.foldl (fun (acc : List String × List String) p =>
          let normP := normalizeIngredientName p
          if ¬ acc.2.contains normP ∧ normP ≠ normalized then
            (acc.1 ++ [p], acc.2 ++ [normP])
          else acc)
          (candidates, candidates.map normalizeIngredientName)).1
      else candidates
  let recipeNormalized :=
    (recipeIngredients.getD []).map normalizeIngredientName
  let candidates := candidates.filter (fun c =>
    normalizeIngredientName c ≠ normalized ∧
    ¬ recipeNormalized.contains (normalizeIngredientName c))
  if candidates = [] then []
  else rankSubstitutes env candidates flavorProfile currentHealthScore

/-! ## estimate_nutrition_with_swaps (`swap_engine.py`, lines 588-675) -/

/-- A swap dict as consumed by `estimate_nutrition_with_swaps`: the
`accepted` flag and the substitute's name (whether the `substitute` entry
is a `SubstituteOption` or a plain dict, only its name is read). -/
structure SwapD where
  accepted : Bool
  substituteName : String

def ADJUSTABLE_NUTRIENTS : List String :=
  ["sugar", "sodium", "saturated_fat", "trans_fat", "cholesterol", "fiber"]

def BASELINE : DictQ :=
  [("sugar", 5.0), ("sodium", 50.0), ("saturated_fat", 2.0),
   ("trans_fat", 0.0), ("cholesterol", 20.0), ("fiber", 2.0)]

/-- The `adjustment_map` of `SwapEngine._get_nutrition_adjustments`
(lines 694-831), in source order. -/
def adjustmentMap : List (String × DictQ) :=
  [
   ("olive oil", [("saturated_fat", 0.55), ("trans_fat", 0.0), ("cholesterol", 0.5)]),
   ("avocado oil", [("saturated_fat", 0.5), ("trans_fat", 0.0), ("cholesterol", 0.4)]),
   ("coconut oil", [("saturated_fat", 1.2), ("trans_fat", 0.0), ("cholesterol", 0.3)]),
   ("ghee", [("saturated_fat", 0.9), ("trans_fat", 0.0)]),
   ("applesauce", [("saturated_fat", 0.1), ("sugar", 1.3), ("calories", 0.5), ("fat", 0.1)]),
   ("stevia", [("sugar", 0.05), ("calories", 0.05)]),
   ("monk fruit", [("sugar", 0.05), ("calories", 0.05)]),
   ("honey", [("sugar", 0.85), ("calories", 0.9)]),
   ("maple syrup", [("sugar", 0.8), ("calories", 0.85)]),
   ("coconut sugar", [("sugar", 0.75), ("calories", 0.9)]),
   ("date sugar", [("sugar", 0.7), ("calories", 0.85), ("fiber", 1.5)]),
   ("agave", [("sugar", 0.8), ("calories", 0.85)]),
   ("almond milk", [("saturated_fat", 0.2), ("cholesterol", 0.0), ("calories", 0.4)]),
   ("oat milk", [("saturated_fat", 0.2), ("cholesterol", 0.0), ("fiber", 1.5), ("calories", 0.6)]),
   ("soy milk", [("saturated_fat", 0.25), ("cholesterol", 0.0), ("calories", 0.55)]),
   ("coconut cream", [("saturated_fat", 1.1), ("cholesterol", 0.0)]),
   ("cashew cream", [("saturated_fat", 0.4), ("cholesterol", 0.0)]),
   ("greek yogurt", [("saturated_fat", 0.5), ("cholesterol", 0.6), ("sugar", 0.5)]),
   ("nutritional yeast", [("saturated_fat", 0.1), ("cholesterol", 0.0), ("sodium", 0.3)]),
   ("brown rice", [("fiber", 2.0)]),
   ("quinoa", [("fiber", 2.0)]),
   ("cauliflower rice", [("calories", 0.3), ("carbs", 0.2), ("fiber", 1.5)]),
   ("whole wheat flour", [("fiber", 2.0)]),
   ("almond flour", [("carbs", 0.4), ("fiber", 2.0), ("fat", 1.3)]),
   ("oat flour", [("fiber", 2.0)]),
   ("whole wheat pasta", [("fiber", 2.0)]),
   ("zucchini noodles", [("calories", 0.2), ("carbs", 0.15), ("fiber", 1.5)]),
   ("ground turkey", [("saturated_fat", 0.5), ("cholesterol", 0.7), ("calories", 0.75)]),
   ("ground chicken", [("saturated_fat", 0.4), ("cholesterol", 0.6), ("calories", 0.7)]),
   ("lentils", [("saturated_fat", 0.1), ("cholesterol", 0.0), ("fiber", 3.0), ("calories", 0.6)]),
   ("turkey bacon", [("saturated_fat", 0.4), ("sodium", 0.8), ("calories", 0.6)]),
   ("tempeh", [("saturated_fat", 0.2), ("cholesterol", 0.0), ("fiber", 2.5)]),
   ("chicken sausage", [("saturated_fat", 0.5), ("calories", 0.7)]),
   ("turkey sausage", [("saturated_fat", 0.45), ("calories", 0.7)]),
   ("hummus", [("saturated_fat", 0.3), ("fiber", 2.0), ("cholesterol", 0.0)]),
   ("avocado", [("saturated_fat", 0.3), ("fiber", 2.5), ("cholesterol", 0.0)]),
   ("coconut aminos", [("sodium", 0.4)]),
   ("tamari", [("sodium", 0.7)]),
   ("salsa", [("sugar", 0.3), ("sodium", 0.6), ("calories", 0.3)]),
   ("herbs", [("sodium", 0.0)]),
   ("lemon juice", [("sodium", 0.0)]),
   ("garlic powder", [("sodium", 0.05)]),
   ("herb blend", [("sodium", 0.05)])
  ]

def defaultAdjustments : DictQ :=
  [("saturated_fat", 0.85), ("sodium", 0.85), ("sugar", 0.85),
   ("cholesterol", 0.85)]

/-- `SwapEngine._get_nutrition_adjustments` (lines 677-844). -/
def getNutritionAdjustments (substituteName : String) : DictQ :=
  let normalized := normalizeIngredientName substituteName
  match adjustmentMap.find? (fun p => strIn p.1 normalized) with
  | some p => p.2
  | none => defaultAdjustments

/-- The inner `for nutrient, factor in adjustments.items()` body of
`estimate_nutrition_with_swaps`. -/
def applyAdjustment (ingredientShare : ℚ) (nd : DictQ) (adj : String × ℚ) :
    DictQ :=
  let nutrient := adj.1
  let factor := adj.2
  if ¬ ADJUSTABLE_NUTRIENTS.contains nutrient then nd
  else if ¬ dmem nd nutrient then nd
  else
    let originalValue := dget nd nutrient 0
    if originalValue = 0 then
      if factor > 1.0 then
        dset nd nutrient (dget BASELINE nutrient 0 * ingredientShare * factor)
      else nd
    else
      let portion := originalValue * ingredientShare
      let adjusted := portion * factor
      dset nd nutrient (originalValue - portion + adjusted)

/-- `SwapEngine.estimate_nutrition_with_swaps` (lines 588-675). -/
def estimateNutritionWithSwaps (originalNutrition : DictQ)
    (swaps : List SwapD) (totalIngredients : ℕ) : DictQ :=
  let newNutrition := originalNutrition
  let acceptedSwaps := swaps.filter (·.accepted)
  if acceptedSwaps.isEmpty then newNutrition
  else
    let numIngredients := max totalIngredients (max (acceptedSwaps.length + 2) 3)
    let ingredientShare : ℚ := 1.0 / (numIngredients : ℚ)
    acceptedSwaps.foldl (fun nd swap =>
      (getNutritionAdjustments swap.substituteName).foldl
        (applyAdjustment ingredientShare) nd)
      newNutrition

/-- A concrete oracle environment: semantic reranking disabled, constant
flavor similarity, empty profiles, two FlavorDB pairings. -/
def c3Env : SwapEnv :=
  { calcSim := fun _ _ => some 80,
    profile := fun _ => some ⟨"", []⟩,
    pairings := fun _ => some ["milk", "cream"],
    semantic := fun _ _ => [],
    useSemanticRerank := false,
    semanticWeight := 1/10 }

/-- A concrete oracle environment in which the semantic embedding backend
is unavailable: `compute_similarity_scores` always returns no scores, while
the constructor defaults `use_semantic_rerank = True`,
`semantic_weight = 0.1` are kept.  Flavor similarity is the constant 100
and every FlavorDB profile is empty. -/
def c7Env : SwapEnv :=
  { calcSim := fun _ _ => some 100,
    profile := fun _ => some ⟨"", []⟩,
    pairings := fun _ => none,
    semantic := fun _ _ => [],
    useSemanticRerank := true,
    semanticWeight := 1/10 }

/-! ## LLMSwapAgent.run (`services/llm_swap_agent.py`, lines 144-252),
`_parse_agent_response` (lines 364-417) and `_extract_json`
(lines 419-445) -/

/-- A content part of a Gemini response: a function call (only its name is
read) or text. -/
inductive GPart where
  | funcCall (name : String)
  | text (s : String)
  deriving DecidableEq

def isFuncCallPart : GPart → Bool
  | .funcCall _ => true
  | .text _ => false

def partText : GPart → Option String
  | .text s => some s
  | .funcCall _ => none

def partName : GPart → Option String
  | .funcCall n => some n
  | .text _ => none

/-- One `generate_content` outcome: a raised exception carrying its
message, or a response whose first candidate carries the given parts
(`parts []` collapses the three falsy cases: no candidates, no content,
empty parts list). -/
inductive GenResponse where
  | err (msg : String)
  | parts (ps : List GPart)
  deriving DecidableEq

/-- The fields `_parse_agent_response` reads from the decoded top-level
JSON object; `none` models a missing key.  (The `substitutions` and
`no_substitute_ingredients` entries are dropped: no claim inspects
them.) -/
structure JObj where
  dataCompleteness : Option String
  overallConfidence : Option ℚ

/-- The fields of `AgentSwapResult` the claims inspect, with the pydantic
defaults of `models/agent_response.py` (`raw_reasoning` defaults to
`None`, `overall_confidence` to 0.5). -/
structure AgentSwapResultM where
  dataCompleteness : String
  rawReasoning : Option String
  iterations : ℕ
  apisCalled : List String
  overallConfidence : ℚ
  deriving Repr

/-- The opening brace, closing brace and backtick characters. -/
def obr : Char := Char.ofNat 123
def cbr : Char := Char.ofNat 125
def btick : Char := Char.ofNat 96

/-- Python `text.strip()` (whitespace on both ends). -/
def pyStripWs (s : List Char) : List Char :=
  ((s.dropWhile isPySpace).reverse.dropWhile isPySpace).reverse

/-- The depth scan of `_extract_json`: walk the stripped text, return the
prefix up to the brace closing the initial one, `none` if it never
balances (the Python loop then falls through). -/
def braceScan (depth : ℤ) (acc : List Char) : List Char → Option (List Char)
  | [] => none
  | c :: rest =>
    if c = obr then braceScan (depth + 1) (acc ++ [c]) rest
    else if c = cbr then
      if depth - 1 = 0 then some (acc ++ [c])
      else braceScan (depth - 1) (acc ++ [c]) rest
    else braceScan depth (acc ++ [c]) rest

/-- After the capture group of the fence pattern, the regex requires
whitespace then three backticks. -/
def fenceAfterGroup (s : List Char) : Bool :=
  (s.dropWhile isPySpace).take 3 == [btick, btick, btick]

/-- The non-greedy group body: the shortest extension ending in a closing
brace after which `fenceAfterGroup` holds (the backtracking order of the
lazy quantifier in the fence pattern of `_extract_json`). -/
def groupScan (gacc : List Char) : List Char → Option (List Char)
  | [] => none
  | c :: rest =>
    if c = cbr ∧ fenceAfterGroup rest then some (gacc ++ [c])
    else groupScan (gacc ++ [c]) rest

/-- Try the fence pattern anchored at this position: three backticks, an
optional (greedily preferred) literal "json", whitespace, then the
captured brace group. -/
def fenceAt (s : List Char) : Option (List Char) :=
  if s.take 3 = [btick, btick, btick] then
    let s1 := s.drop 3
    let fromHere := fun (t : List Char) =>
      match t.dropWhile isPySpace with
      | c :: rest => if c = obr then groupScan [obr] rest else none
      | [] => none
    match (if s1.take 4 = "json".toList then fromHere (s1.drop 4) else none)
    with
    | some g => some g
    | none => fromHere s1
  else none

/-- `re.search` of the fence pattern: leftmost position wins. -/
def fenceSearch : List Char → Option (List Char)
  | [] => none
  | c :: rest =>
    match fenceAt (c :: rest) with
    | some g => some g
    | none => fenceSearch rest

/-- `LLMSwapAgent._extract_json` (lines 419-445): raw balanced-brace
prefix of the stripped text, else fenced block, else first `{` to last
`}` slice. -/
def extractJson (text : List Char) : Option (List Char) :=
  let stripped := pyStripWs text
  let direct : Option (List Char) :=
    match stripped with
    | c :: _ => if c = obr then braceScan 0 [] stripped else none
    | [] => none
  match direct with
  | some r => some r
  | none =>
    match fenceSearch text with
    | some g => some g
    | none =>
      let fi := text.findIdx? (fun c => c = obr)
      let li :=
        match text.reverse.findIdx? (fun c => c = cbr) with
        | some j => some (text.length - 1 - j)
        | none => none
      match fi, li with
      | some f, some l =>
        if f < l then some ((text.drop f).take (l - f + 1)) else none
      | _, _ => none

/-- `LLMSwapAgent._parse_agent_response` (lines 364-417), restricted to
the fields the claims inspect.  `loads` is the `json.loads` oracle
(`none` = `JSONDecodeError`). -/
def parseAgentResponse (loads : String → Option JObj) (text : String)
    (toolsCalled : List String) (iterations : ℕ) : AgentSwapResultM :=
  match extractJson text.toList with
  | none => ⟨"parse_error", some text, iterations, toolsCalled, 0.5⟩
  | some js =>
    if js.isEmpty then ⟨"parse_error", some text, iterations, toolsCalled, 0.5⟩
    else
      match loads ⟨js⟩ with
      | none => ⟨"parse_error", some text, iterations, toolsCalled, 0.5⟩
      | some data =>
        ⟨data.dataCompleteness.getD "partial", none, iterations, toolsCalled,
         data.overallConfidence.getD 0.5⟩

/-- The external collaborators of `LLMSwapAgent.run`: the Gemini response
at each iteration (1-indexed, the value of `iteration` after the
increment), the `json.loads` oracle, and `settings.LLM_MAX_ITERATIONS`. -/
structure AgentEnv where
  respond : ℕ → GenResponse
  loads : String → Option JObj
  maxIterations : ℕ

/-- The `while iteration < max_iterations` loop of `LLMSwapAgent.run`.
`fuel` is `max_iterations - iteration`, so `fuel = 0` is the loop exit
(the "hit max iterations" return); the `parts []` branch is the `break`,
which reaches the same return with the current `iteration` value. -/
def runFrom (env : AgentEnv) : ℕ → ℕ → List String → AgentSwapResultM
  | 0, iteration, tools =>
    ⟨"partial", some "Agent reached maximum iteration limit", iteration,
     tools, 0.5⟩
  | fuel + 1, iteration, tools =>
    let iter := iteration + 1
    match env.respond iter with
    | .err msg =>
      ⟨"parse_error", some ("Gemini API error: " ++ msg), iter, tools, 0.5⟩
    | .parts ps =>
      if ps.isEmpty then
        ⟨"partial", some "Agent reached maximum iteration limit", iter,
         tools, 0.5⟩
      else
        let functionCalls := ps.filter isFuncCallPart
        if functionCalls.isEmpty then
          parseAgentResponse env.loads
            (String.join (ps.filterMap partText)) tools iter
        else
          runFrom env fuel iter (tools ++ functionCalls.filterMap partName)

/-- `LLMSwapAgent.run` from the top of the loop. -/
def runAgent (env : AgentEnv) : AgentSwapResultM :=
  runFrom env env.maxIterations 0 []

/-- A response round that keeps the loop going: a non-empty parts list
containing at least one function call. -/
def toolRound (r : GenResponse) : Prop :=
  ∃ ps, r = .parts ps ∧ ps ≠ [] ∧ ps.filter isFuncCallPart ≠ []

/-- Concrete environment: every round answers plain text that holds no
JSON object, and `json.loads` always fails. -/
def c2EnvA : AgentEnv :=
  { respond := fun _ => .parts [.text "no json here"],
    loads := fun _ => none,
    maxIterations := 3 }

/-- Concrete environment: every round issues a tool call. -/
def c2EnvB : AgentEnv :=
  { respond := fun _ => .parts [.funcCall "search_flavor_compounds"],
    loads := fun _ => none,
    maxIterations := 3 }

/-- Concrete environment: the first response already has no parts. -/
def c10Env : AgentEnv :=
  { respond := fun _ => .parts [],
    loads := fun _ => none,
    maxIterations := 5 }

/-! ## AgentSwapResult.estimate_nutrition_changes
(`models/agent_response.py`, lines 108-125) -/

/-- The only field of an `AgentSubstitution` that
`estimate_nutrition_changes` reads. -/
structure AgentSubstitutionD where
  confidence : ℚ

/-- The key list of the inner `for key in [...]` loop, in source order. -/
def NUT_KEYS : List String :=
  ["calories", "saturated_fat", "trans_fat", "sodium", "sugar",
   "cholesterol"]

/-- `AgentSwapResult.estimate_nutrition_changes`.  The inner fold carries
the Python loop variable `key` in its accumulator: after the inner loop it
still holds the last element of the key list ("cholesterol"), and the
source's fiber-increase line `result[key] = result.get("fiber", 0) + ...`
writes through that leaked variable, not through "fiber". -/
def estimateNutritionChanges (subs : List AgentSubstitutionD)
    (nutritionData : DictQ) (nIngredients : ℕ) : DictQ :=
  if nIngredients = 0 then nutritionData
  else
    let proportion : ℚ := 1.0 / (nIngredients : ℚ)
    subs.foldl (fun result sub =>
      let factor := max 0.3 (1.0 - sub.confidence * 0.5)
      let step := NUT_KEYS.foldl (fun (acc : DictQ × String) key =>
        (if dmem acc.1 key then
          dset acc.1 key
            (dget acc.1 key 0 - dget acc.1 key 0 * proportion * (1 - factor))
        else acc.1, key)) (result, "")
      let result := step.1
      let key := step.2
      if dmem result "fiber" then
        dset result key
          (dget result "fiber" 0 + dget result "fiber" 0 * proportion * 0.2)
      else result) nutritionData

/-- The concrete nutrition dict of the C6 scenario. -/
def c6Nutrition : DictQ :=
  [("calories", 350), ("protein", 25), ("carbs", 30), ("fat", 15),
   ("sodium", 450), ("sugar", 8), ("saturated_fat", 5), ("trans_fat", 0),
   ("cholesterol", 75), ("fiber", 4)]

end Epoch

namespace Epoch

/-! ## Theorems settling the claims -/

/-- Characterization of the pydantic `HealthScore` construction as a
plain proposition. -/
theorem mkHealthScore_isSome_iff (s : ℚ) (r : String) :
    (mkHealthScore s r).isSome ↔
      (0 ≤ s ∧ s ≤ 100) ∧ validRatings.contains r = true ∧
      ¬(s ≥ 80 ∧ r ≠ "Excellent") ∧ ¬(60 ≤ s ∧ s < 80 ∧ r ≠ "Good") ∧
      ¬(40 ≤ s ∧ s < 60 ∧ r ≠ "Decent") ∧ ¬(20 ≤ s ∧ s < 40 ∧ r ≠ "Bad") ∧
      ¬(s < 20 ∧ r ≠ "Poor") := by
  unfold mkHealthScore
  split_ifs <;> simp_all

/-- C1: For every score s in [0,100], the rating assigned by
`HealthScorer.assign_rating` is the fixed threshold bucket containing s
(>=80 Excellent, >=60 Good, >=40 Decent, >=20 Bad, else Poor), and
constructing a `HealthScore` whose (score, rating) pair is inconsistent
with those thresholds is rejected with a validation error. -/
theorem assign_rating_bucket_and_validator (s : ℚ) (h0 : 0 ≤ s) (h1 : s ≤ 100) :
    assignRating s = claimRatingBucket s ∧
    ∀ r : String, (mkHealthScore s r).isSome ↔ r = claimRatingBucket s := by
  have tE : ratingThreshold "Excellent" = 80 := by decide
  have tG : ratingThreshold "Good" = 60 := by decide
  have tD : ratingThreshold "Decent" = 40 := by decide
  have tB : ratingThreshold "Bad" = 20 := by decide
  refine ⟨by simp only [assignRating, claimRatingBucket, tE, tG, tD, tB, ge_iff_le], ?_⟩
  intro r
  rw [mkHealthScore_isSome_iff]
  rcases le_or_lt 80 s with h80 | h80
  · have hc : claimRatingBucket s = "Excellent" := by
      simp only [claimRatingBucket, ge_iff_le, if_pos h80]
    rw [hc]
    constructor
    · rintro ⟨-, -, hnE, -, -, -, -⟩
      by_contra hr
      exact hnE ⟨h80, hr⟩
    · rintro rfl
      refine ⟨⟨h0, h1⟩, by decide, ?_, ?_, ?_, ?_, ?_⟩
      · rintro ⟨-, h⟩; exact h rfl
      · rintro ⟨-, h, -⟩; linarith
      · rintro ⟨-, h, -⟩; linarith
      · rintro ⟨-, h, -⟩; linarith
      · rintro ⟨h, -⟩; linarith
  · rcases le_or_lt 60 s with h60 | h60
    · have hc : claimRatingBucket s = "Good" := by
        simp only [claimRatingBucket, ge_iff_le, if_neg (by linarith : ¬(80:ℚ) ≤ s),
          if_pos h60]
      rw [hc]
      constructor
      · rintro ⟨-, -, -, hnG, -, -, -⟩
        by_contra hr
        exact hnG ⟨h60, h80, hr⟩
      · rintro rfl
        refine ⟨⟨h0, h1⟩, by decide, ?_, ?_, ?_, ?_, ?_⟩
        · rintro ⟨h, -⟩; linarith
        · rintro ⟨-, -, h⟩; exact h rfl
        · rintro ⟨-, h, -⟩; linarith
        · rintro ⟨-, h, -⟩; linarith
        · rintro ⟨h, -⟩; linarith
    · rcases le_or_lt 40 s with h40 | h40
      · have hc : claimRatingBucket s = "Decent" := by
          simp only [claimRatingBucket, ge_iff_le, if_neg (by linarith : ¬(80:ℚ) ≤ s),
            if_neg (by linarith : ¬(60:ℚ) ≤ s), if_pos h40]
        rw [hc]
        constructor
        · rintro ⟨-, -, -, -, hnD, -, -⟩
          by_contra hr
          exact hnD ⟨h40, h60, hr⟩
        · rintro rfl
          refine ⟨⟨h0, h1⟩, by decide, ?_, ?_, ?_, ?_, ?_⟩
          · rintro ⟨h, -⟩; linarith
          · rintro ⟨h, -, -⟩; linarith
          · rintro ⟨-, -, h⟩; exact h rfl
          · rintro ⟨-, h, -⟩; linarith
          · rintro ⟨h, -⟩; linarith
      · rcases le_or_lt 20 s with h20 | h20
        · have hc : claimRatingBucket s = "Bad" := by
            simp only [claimRatingBucket, ge_iff_le, if_neg (by linarith : ¬(80:ℚ) ≤ s),
              if_neg (by linarith : ¬(60:ℚ) ≤ s), if_neg (by linarith : ¬(40:ℚ) ≤ s),
              if_pos h20]
          rw [hc]
          constructor
          · rintro ⟨-, -, -, -, -, hnB, -⟩
            by_contra hr
            exact hnB ⟨h20, h40, hr⟩
          · rintro rfl
            refine ⟨⟨h0, h1⟩, by decide, ?_, ?_, ?_, ?_, ?_⟩
            · rintro ⟨h, -⟩; linarith
            · rintro ⟨h, -, -⟩; linarith
            · rintro ⟨h, -, -⟩; linarith
            · rintro ⟨-, -, h⟩; exact h rfl
            · rintro ⟨h, -⟩; linarith
        · have hc : claimRatingBucket s = "Poor" := by
            simp only [claimRatingBucket, ge_iff_le, if_neg (by linarith : ¬(80:ℚ) ≤ s),
              if_neg (by linarith : ¬(60:ℚ) ≤ s), if_neg (by linarith : ¬(40:ℚ) ≤ s),
              if_neg (by linarith : ¬(20:ℚ) ≤ s)]
          rw [hc]
          constructor
          · rintro ⟨-, -, -, -, -, -, hnP⟩
            by_contra hr
            exact hnP ⟨h20, hr⟩
          · rintro rfl
            refine ⟨⟨h0, h1⟩, by decide, ?_, ?_, ?_, ?_, ?_⟩
            · rintro ⟨h, -⟩; linarith
            · rintro ⟨h, -, -⟩; linarith
            · rintro ⟨h, -, -⟩; linarith
            · rintro ⟨h, -, -⟩; linarith
            · rintro ⟨-, h⟩; exact h rfl

/-- Witness for C1 at the concrete score 73. -/
theorem assign_rating_bucket_and_validator_witness :
    assignRating 73 = claimRatingBucket 73 ∧
    ∀ r : String, (mkHealthScore 73 r).isSome ↔ r = claimRatingBucket 73 :=
  assign_rating_bucket_and_validator 73 (by norm_num) (by norm_num)

end Epoch

namespace Epoch

/-- C6: For the scenario nutrition (350 kcal, 25g protein, 30g carbs, 15g
fat, 450mg sodium, 8g sugar, 5g saturated fat, 0g trans fat, 75mg
cholesterol, 4g fiber) with empty micronutrients, exactly one
negative-factor penalty fires (sodium, -5), and the final normalized score
lies in the Good/Decent band (40 ≤ score < 80), so the rating is not
"Excellent". -/
theorem c6_scenario_sodium_only_good_decent :
    getNegativeFactorDetails c6Nutrition = [("sodium", -5)] ∧
    scoreNegativeFactors c6Nutrition = -5 ∧
    calculateHealthScore c6Nutrition ⟨[], []⟩ = ⟨499/10, "Decent"⟩ ∧
    40 ≤ (calculateHealthScore c6Nutrition ⟨[], []⟩).score ∧
    (calculateHealthScore c6Nutrition ⟨[], []⟩).score < 80 ∧
    (calculateHealthScore c6Nutrition ⟨[], []⟩).rating ≠ "Excellent" := by
  set_option maxRecDepth 10000 in with_unfolding_all decide

end Epoch

namespace Epoch

/-- C8 counterexample: normalization is not idempotent.  For the input
"fresh2", the first pass strips the digit after the preparation-word pass,
re-exposing the word "fresh", which the second pass then removes:
normalize("fresh2") = "fresh" but normalize("fresh") = "". -/
theorem normalize_not_idempotent_on_fresh2 :
    normalizeIngredientName (normalizeIngredientName "fresh2") ≠
      normalizeIngredientName "fresh2" := by
  set_option maxRecDepth 20000 in with_unfolding_all decide

end Epoch

namespace Epoch

/-! ## Engine lemmas for the normalization development -/

theorem RE.one_le_sizeOf (re : RE) : 1 ≤ sizeOf re := by
  cases re <;> simp <;> omega

theorem suffix_of_mem_reMs (re : RE) (p : Option Char) (s : List Char) :
    ∀ x ∈ reMs re p s, x.2 <:+ s := by
  suffices H : ∀ (n : ℕ) (re : RE) (p : Option Char) (s : List Char),
      sizeOf re + s.length ≤ n → ∀ x ∈ reMs re p s, x.2 <:+ s by
    exact H (sizeOf re + s.length) re p s le_rfl
  intro n
  induction n with
  | zero =>
    intro re p s h
    have := re.one_le_sizeOf
    omega
  | succ n ih =>
    intro re p s hn x hx
    match re with
    | .eps =>
      simp only [reMs, List.mem_singleton] at hx
      subst hx; exact List.suffix_rfl
    | .chr f =>
      match s with
      | [] => simp [reMs] at hx
      | c :: s =>
        simp only [reMs] at hx
        split_ifs at hx with h
        · simp only [List.mem_singleton] at hx
          subst hx
          exact List.suffix_cons c s
        · simp at hx
    | .bnd =>
      simp only [reMs] at hx
      split_ifs at hx with h
      · simp only [List.mem_singleton] at hx
        subst hx; exact List.suffix_rfl
      · simp at hx
    | .seq a b =>
      simp only [reMs, List.mem_flatMap] at hx
      obtain ⟨y, hy, hxy⟩ := hx
      have ha := a.one_le_sizeOf
      have hb := b.one_le_sizeOf
      have hsz : sizeOf (RE.seq a b) = 1 + sizeOf a + sizeOf b := by simp
      have hy2 : y.2 <:+ s := by
        refine ih a p s ?_ y hy
        omega
      have hylen : y.2.length ≤ s.length := hy2.length_le
      have hx2 : x.2 <:+ y.2 := by
        refine ih b y.1 y.2 ?_ x hxy
        omega
      exact hx2.trans hy2
    | .alt a b =>
      simp only [reMs, List.mem_append] at hx
      have ha := a.one_le_sizeOf
      have hb := b.one_le_sizeOf
      have hsz : sizeOf (RE.alt a b) = 1 + sizeOf a + sizeOf b := by simp
      rcases hx with hx | hx
      · exact ih a p s (by omega) x hx
      · exact ih b p s (by omega) x hx
    | .star a =>
      rw [reMs.eq_7] at hx
      simp only [List.mem_append, List.mem_flatMap, List.mem_attach,
        true_and] at hx
      have ha := a.one_le_sizeOf
      have hsz : sizeOf (RE.star a) = 1 + sizeOf a := by simp
      rcases hx with ⟨⟨y, hy⟩, hx⟩ | hx
      · have hmem := (List.mem_filter.mp hy).1
        have hlt : y.2.length < s.length := by
          have := (List.mem_filter.mp hy).2
          simpa using this
        have hy2 : y.2 <:+ s := ih a p s (by omega) y hmem
        have hx2 : x.2 <:+ y.2 := ih (.star a) y.1 y.2 (by omega) x hx
        exact hx2.trans hy2
      · simp only [List.mem_singleton] at hx
        subst hx; exact List.suffix_rfl

theorem head_reMs_star_chr (pc : Char → Bool) :
    ∀ (s : List Char) (p : Option Char),
      ∃ w, (reMs (.star (.chr pc)) p s).head? = some (w, s.dropWhile pc) := by
  intro s
  induction s with
  | nil =>
    intro p
    rw [reMs.eq_7, reMs.eq_2]
    simp
  | cons c t ih =>
    intro p
    rw [reMs.eq_7, reMs.eq_3]
    by_cases hpc : pc c
    · rw [if_pos hpc]
      simp only [List.length_cons]
      have hfil :
          List.filter (fun x => decide (x.2.length < t.length + 1))
            [(some c, t)] = [(some c, t)] := by
        simp
      rw [hfil]
      simp only [List.attach_cons, List.flatMap_cons, List.attach_nil,
        List.map_nil, List.flatMap_nil, List.append_nil]
      obtain ⟨w, hw⟩ := ih (some c)
      refine ⟨w, ?_⟩
      rw [List.head?_append, hw]
      simp [List.dropWhile_cons, hpc]
    · rw [if_neg hpc]
      refine ⟨p, ?_⟩
      simp [List.dropWhile_cons, hpc]

theorem matchHere_rplus_chr_pos (pc : Char → Bool) (p : Option Char)
    (c : Char) (rest : List Char) (hpc : pc c = true) :
    ∃ w, matchHere (rplus (.chr pc)) p (c :: rest) =
      some (w, rest.dropWhile pc) := by
  unfold matchHere rplus
  rw [reMs.eq_4, reMs.eq_3, if_pos hpc]
  simp only [List.flatMap_cons, List.flatMap_nil, List.append_nil]
  exact head_reMs_star_chr pc rest (some c)

theorem matchHere_rplus_chr_neg (pc : Char → Bool) (p : Option Char)
    (c : Char) (rest : List Char) (hpc : pc c = false) :
    matchHere (rplus (.chr pc)) p (c :: rest) = none := by
  unfold matchHere rplus
  rw [reMs.eq_4, reMs.eq_3, if_neg (by simp [hpc])]
  simp

theorem rsub_rplus_eq_collapseRuns (pc : Char → Bool) (r : Char) :
    ∀ (s : List Char) (p : Option Char),
      rsub (rplus (.chr pc)) [r] p s = collapseRuns pc r s := by
  suffices H : ∀ (n : ℕ) (s : List Char), s.length ≤ n → ∀ (p : Option Char),
      rsub (rplus (.chr pc)) [r] p s = collapseRuns pc r s by
    intro s p; exact H s.length s le_rfl p
  intro n
  induction n with
  | zero =>
    intro s hs p
    have : s = [] := List.eq_nil_of_length_eq_zero (by omega)
    subst this
    simp [rsub, collapseRuns]
  | succ n ih =>
    intro s hs p
    match s with
    | [] => simp [rsub, collapseRuns]
    | c :: rest =>
      by_cases hpc : pc c
      · obtain ⟨w, hw⟩ := matchHere_rplus_chr_pos pc p c rest hpc
        have hlen : (rest.dropWhile pc).length ≤ rest.length :=
          (rest.dropWhile_suffix pc).length_le
        rw [rsub, hw]
        simp only [List.length_cons]
        rw [dif_pos (by omega)]
        rw [collapseRuns, if_pos hpc]
        simp only [List.singleton_append, List.cons.injEq, true_and]
        refine ih (rest.dropWhile pc) (by simp at hs; omega) w
      · rw [rsub, matchHere_rplus_chr_neg pc p c rest (by simpa using hpc)]
        rw [collapseRuns, if_neg hpc]
        simp only [List.cons.injEq, true_and]
        exact ih rest (by simp at hs; omega) (some c)

/-! ## collapseRuns properties -/

theorem mem_collapseRuns (pc : Char → Bool) (r : Char) :
    ∀ (s : List Char), ∀ c ∈ collapseRuns pc r s,
      c = r ∨ (c ∈ s ∧ pc c = false) := by
  suffices H : ∀ (n : ℕ) (s : List Char), s.length ≤ n →
      ∀ c ∈ collapseRuns pc r s, c = r ∨ (c ∈ s ∧ pc c = false) by
    intro s; exact H s.length s le_rfl
  intro n
  induction n with
  | zero =>
    intro s hs c hc
    have : s = [] := List.eq_nil_of_length_eq_zero (by omega)
    subst this
    simp [collapseRuns] at hc
  | succ n ih =>
    intro s hs c hc
    match s with
    | [] => simp [collapseRuns] at hc
    | a :: rest =>
      rw [collapseRuns] at hc
      split_ifs at hc with ha
      · rcases List.mem_cons.mp hc with h | h
        · exact Or.inl h
        · have hlen : (rest.dropWhile pc).length ≤ rest.length :=
            (rest.dropWhile_suffix pc).length_le
          rcases ih (rest.dropWhile pc) (by simp at hs; omega) c h with h' | ⟨hm, hp⟩
          · exact Or.inl h'
          · exact Or.inr ⟨List.mem_cons_of_mem a ((rest.dropWhile_suffix pc).subset hm), hp⟩
      · rcases List.mem_cons.mp hc with h | h
        · refine Or.inr ⟨?_, ?_⟩
          · rw [h]; exact List.mem_cons_self a rest
          · rw [h]; simpa using ha
        · rcases ih rest (by simp at hs; omega) c h with h' | ⟨hm, hp⟩
          · exact Or.inl h'
          · exact Or.inr ⟨List.mem_cons_of_mem a hm, hp⟩

theorem head?_collapseRuns (pc : Char → Bool) (r : Char) (s : List Char) :
    (collapseRuns pc r s).head? = s.head?.map (fun c => if pc c then r else c) := by
  match s with
  | [] => simp [collapseRuns]
  | a :: rest =>
    rw [collapseRuns]
    split_ifs with ha <;> simp [ha]

/-- Output of run collapsing never has two adjacent characters that both
satisfy the collapsed class. -/
theorem chain'_collapseRuns (pc : Char → Bool) (r : Char) :
    ∀ (s : List Char),
      List.Chain' (fun a b => ¬(pc a = true ∧ pc b = true)) (collapseRuns pc r s) := by
  suffices H : ∀ (n : ℕ) (s : List Char), s.length ≤ n →
      List.Chain' (fun a b => ¬(pc a = true ∧ pc b = true)) (collapseRuns pc r s) by
    intro s; exact H s.length s le_rfl
  intro n
  induction n with
  | zero =>
    intro s hs
    have : s = [] := List.eq_nil_of_length_eq_zero (by omega)
    subst this
    simp [collapseRuns]
  | succ n ih =>
    intro s hs
    match s with
    | [] => simp [collapseRuns]
    | a :: rest =>
      rw [collapseRuns]
      split_ifs with ha
      · have hlen : (rest.dropWhile pc).length ≤ rest.length :=
          (rest.dropWhile_suffix pc).length_le
        refine List.chain'_cons'.mpr ⟨?_, ih (rest.dropWhile pc) (by simp at hs; omega)⟩
        intro y hy
        rw [head?_collapseRuns] at hy
        match hd : (rest.dropWhile pc).head? with
        | none => rw [hd] at hy; simp at hy
        | some d =>
          rw [hd] at hy
          have hdp : pc d = false := by
            have h2 := List.head?_dropWhile_not pc rest
            rw [hd] at h2
            simpa using h2
          have hy2 : y = if pc d = true then r else d := by
            symm; simpa using hy
          rw [hdp] at hy2
          simp only [Bool.false_eq_true, if_false] at hy2
          subst hy2
          rintro ⟨-, hyp⟩
          simp [hdp] at hyp
      · refine List.chain'_cons'.mpr ⟨?_, ih rest (by simp at hs; omega)⟩
        intro y hy
        rintro ⟨hap, -⟩
        simp [hap] at ha

/-- Run collapsing is the identity on a list whose `pc`-characters are all
already `r` and never adjacent. -/
theorem collapseRuns_id (pc : Char → Bool) (r : Char) :
    ∀ (s : List Char), (∀ c ∈ s, pc c = true → c = r) →
      List.Chain' (fun a b => ¬(pc a = true ∧ pc b = true)) s →
      collapseRuns pc r s = s := by
  suffices H : ∀ (n : ℕ) (s : List Char), s.length ≤ n →
      (∀ c ∈ s, pc c = true → c = r) →
      List.Chain' (fun a b => ¬(pc a = true ∧ pc b = true)) s →
      collapseRuns pc r s = s by
    intro s; exact H s.length s le_rfl
  intro n
  induction n with
  | zero =>
    intro s hs _ _
    have : s = [] := List.eq_nil_of_length_eq_zero (by omega)
    subst this
    simp [collapseRuns]
  | succ n ih =>
    intro s hs hall hch
    match s with
    | [] => simp [collapseRuns]
    | a :: rest =>
      rw [collapseRuns]
      split_ifs with ha
      · have har : a = r := hall a (List.mem_cons_self a rest) ha
        have hdw : rest.dropWhile pc = rest := by
          match rest with
          | [] => simp
          | b :: rest' =>
            have hb : pc b = false := by
              by_contra hb
              have := (List.chain'_cons.mp hch).1
              exact this ⟨ha, by simpa using hb⟩
            simp [List.dropWhile_cons, hb]
        rw [hdw, har]
        have := ih rest (by simp at hs; omega)
          (fun c hc hpc => hall c (List.mem_cons_of_mem a hc) hpc)
          (List.chain'_cons'.mp hch).2
        rw [this]
      · have := ih rest (by simp at hs; omega)
          (fun c hc hpc => hall c (List.mem_cons_of_mem a hc) hpc)
          (List.chain'_cons'.mp hch).2
        rw [this]

/-- Run collapsing with a replacement character outside another class
preserves the no-two-adjacent property of that class. -/
theorem chain'_collapseRuns_other (pc pc2 : Char → Bool) (r : Char)
    (hr : pc2 r = false) :
    ∀ (s : List Char),
      List.Chain' (fun a b => ¬(pc2 a = true ∧ pc2 b = true)) s →
      List.Chain' (fun a b => ¬(pc2 a = true ∧ pc2 b = true))
        (collapseRuns pc r s) := by
  suffices H : ∀ (n : ℕ) (s : List Char), s.length ≤ n →
      List.Chain' (fun a b => ¬(pc2 a = true ∧ pc2 b = true)) s →
      List.Chain' (fun a b => ¬(pc2 a = true ∧ pc2 b = true))
        (collapseRuns pc r s) by
    intro s; exact H s.length s le_rfl
  intro n
  induction n with
  | zero =>
    intro s hs _
    have : s = [] := List.eq_nil_of_length_eq_zero (by omega)
    subst this
    simp [collapseRuns]
  | succ n ih =>
    intro s hs hch
    match s with
    | [] => simp [collapseRuns]
    | a :: rest =>
      rw [collapseRuns]
      split_ifs with ha
      · have hlen : (rest.dropWhile pc).length ≤ rest.length :=
          (rest.dropWhile_suffix pc).length_le
        refine List.chain'_cons'.mpr ⟨?_, ?_⟩
        · intro y _
          rintro ⟨hra, -⟩
          rw [hr] at hra
          exact absurd hra (by simp)
        · refine ih (rest.dropWhile pc) (by simp at hs; omega) ?_
          exact (List.chain'_cons'.mp hch).2.suffix (rest.dropWhile_suffix pc)
      · refine List.chain'_cons'.mpr ⟨?_, ?_⟩
        · intro y hy
          rw [head?_collapseRuns] at hy
          match hd : rest.head? with
          | none => rw [hd] at hy; simp at hy
          | some d =>
            rw [hd] at hy
            have hy2 : y = if pc d = true then r else d := by
              symm; simpa using hy
            by_cases hdp : pc d
            · rw [if_pos hdp] at hy2
              rw [hy2]
              rintro ⟨-, hyp⟩
              rw [hr] at hyp
              exact absurd hyp (by simp)
            · rw [if_neg hdp] at hy2
              rw [hy2]
              match rest with
              | e :: rest' =>
                have hed : e = d := by simpa using hd
                rw [← hed]
                exact (List.chain'_cons.mp hch).1
        · exact ih rest (by simp at hs; omega) (List.chain'_cons'.mp hch).2

/-! ## Generic substitution lemmas -/

/-- A pattern that fails to match at every position leaves the string
unchanged under `rsub`. -/
theorem rsub_id_of_no_match (re : RE) (repl : List Char) (G : Char → Bool)
    (hm : ∀ (p : Option Char) (c : Char) (rest : List Char), G c = true →
      matchHere re p (c :: rest) = none) :
    ∀ (s : List Char) (p : Option Char), (∀ c ∈ s, G c = true) →
      rsub re repl p s = s := by
  intro s
  induction s with
  | nil => intro p _; simp [rsub]
  | cons c rest ih =>
    intro p hall
    rw [rsub, hm p c rest (hall c (List.mem_cons_self c rest))]
    simp only [List.cons.injEq, true_and]
    exact ih (some c) (fun d hd => hall d (List.mem_cons_of_mem c hd))

theorem matchHere_chr_pos (f : Char → Bool) (p : Option Char) (c : Char)
    (rest : List Char) (hc : f c = true) :
    matchHere (.chr f) p (c :: rest) = some (some c, rest) := by
  unfold matchHere
  rw [reMs.eq_3, if_pos hc]
  rfl

theorem matchHere_chr_neg (f : Char → Bool) (p : Option Char) (c : Char)
    (rest : List Char) (hc : f c = false) :
    matchHere (.chr f) p (c :: rest) = none := by
  unfold matchHere
  rw [reMs.eq_3, if_neg (by simp [hc])]
  rfl

/-- A sequence headed by a single-character class fails where the class
fails. -/
theorem matchHere_seq_chr_none (f : Char → Bool) (b : RE) (p : Option Char)
    (c : Char) (rest : List Char) (hc : f c = false) :
    matchHere (.seq (.chr f) b) p (c :: rest) = none := by
  unfold matchHere
  rw [reMs.eq_4, reMs.eq_3, if_neg (by simp [hc])]
  simp

theorem reMs_seq_bnd (a : RE) (p : Option Char) (s : List Char) :
    reMs (.seq .bnd a) p s = if isBoundary p s then reMs a p s else [] := by
  rw [reMs.eq_4, reMs.eq_6]
  split_ifs <;> simp

/-- A pattern of shape `\b` · digit-plus · rest fails on a non-digit
head. -/
theorem matchHere_bnd_plus_none (f : Char → Bool) (b : RE) (p : Option Char)
    (c : Char) (rest : List Char) (hc : f c = false) :
    matchHere (.seq .bnd (.seq (rplus (.chr f)) b)) p (c :: rest) = none := by
  unfold matchHere
  rw [reMs_seq_bnd]
  split_ifs with hb
  · unfold rplus
    rw [reMs.eq_4, reMs.eq_4, reMs.eq_3, if_neg (by simp [hc])]
    simp
  · rfl

theorem matchHere_parenRE_none (p : Option Char) (c : Char) (rest : List Char)
    (hc : (c == '(') = false) :
    matchHere parenRE p (c :: rest) = none :=
  matchHere_seq_chr_none _ _ p c rest hc

theorem matchHere_quantityRE_none (p : Option Char) (c : Char)
    (rest : List Char) (hc : c.isDigit = false) :
    matchHere quantityRE p (c :: rest) = none :=
  matchHere_bnd_plus_none _ _ p c rest hc

theorem matchHere_numberRE_none (p : Option Char) (c : Char)
    (rest : List Char) (hc : c.isDigit = false) :
    matchHere numberRE p (c :: rest) = none :=
  matchHere_bnd_plus_none _ _ p c rest hc

theorem matchHere_specialRE_neg (p : Option Char) (c : Char)
    (rest : List Char) (hg : (isAzLower c || isPySpace c || c == '-') = true) :
    matchHere specialRE p (c :: rest) = none := by
  unfold specialRE
  exact matchHere_chr_neg _ p c rest (by simp [hg])

theorem matchHere_specialRE_pos (p : Option Char) (c : Char)
    (rest : List Char) (hg : (isAzLower c || isPySpace c || c == '-') = false) :
    matchHere specialRE p (c :: rest) = some (some c, rest) := by
  unfold specialRE
  exact matchHere_chr_pos _ p c rest (by simp [hg])

/-- Every character surviving the `[^a-z\s-]` removal pass is a lowercase
letter, whitespace, or hyphen. -/
theorem mem_pySub_specialRE :
    ∀ (s : List Char) (p : Option Char), ∀ c ∈ rsub specialRE [] p s,
      (isAzLower c || isPySpace c || c == '-') = true := by
  intro s
  induction s with
  | nil => intro p c hc; simp [rsub] at hc
  | cons a rest ih =>
    intro p c hc
    by_cases hg : (isAzLower a || isPySpace a || a == '-') = true
    · rw [rsub, matchHere_specialRE_neg p a rest hg] at hc
      rcases List.mem_cons.mp hc with h | h
      · rw [h]; exact hg
      · exact ih (some a) c h
    · rw [rsub, matchHere_specialRE_pos p a rest (by simpa using hg)] at hc
      simp only [List.length_cons] at hc
      rw [dif_pos (by omega)] at hc
      simp only [List.nil_append] at hc
      exact ih (some a) c hc

/-! ## pyStrip lemmas -/

theorem pyStrip_infix_self (s : List Char) : pyStrip s <:+: s := by
  unfold pyStrip
  have h1 : s.dropWhile (fun c => c == ' ' || c == '-') <:+ s :=
    List.dropWhile_suffix _
  have h2 : (s.dropWhile (fun c => c == ' ' || c == '-')).reverse.dropWhile
      (fun c => c == ' ' || c == '-') <:+
      (s.dropWhile (fun c => c == ' ' || c == '-')).reverse :=
    List.dropWhile_suffix _
  have h3 : ((s.dropWhile (fun c => c == ' ' || c == '-')).reverse.dropWhile
      (fun c => c == ' ' || c == '-')).reverse <+:
      s.dropWhile (fun c => c == ' ' || c == '-') :=
    List.reverse_suffix.mp (by rw [List.reverse_reverse]; exact h2)
  exact h3.isInfix.trans h1.isInfix

theorem head?_false_of_dropWhile (q : Char → Bool) (l : List Char) :
    ∀ c ∈ (l.dropWhile q).head?, q c = false := by
  intro c hc
  have h2 := List.head?_dropWhile_not q l
  have hc' : (l.dropWhile q).head? = some c := Option.mem_def.mp hc
  rw [hc'] at h2
  simpa using h2

theorem dropWhile_eq_self_of_head? (q : Char → Bool) (l : List Char)
    (h : ∀ c ∈ l.head?, q c = false) : l.dropWhile q = l := by
  match l with
  | [] => simp
  | c :: rest =>
    have := h c (by simp)
    simp [List.dropWhile_cons, this]

theorem pyStrip_idem (s : List Char) : pyStrip (pyStrip s) = pyStrip s := by
  unfold pyStrip
  set q : Char → Bool := fun c => c == ' ' || c == '-' with hq
  set u := s.dropWhile q with hu
  set v := u.reverse.dropWhile q with hv
  have hvu : v <:+ u.reverse := List.dropWhile_suffix q
  have hpre : v.reverse <+: u :=
    List.reverse_suffix.mp (by rw [List.reverse_reverse]; exact hvu)
  have hhead_u : ∀ c ∈ u.head?, q c = false := head?_false_of_dropWhile q s
  have hhead_v : ∀ c ∈ v.head?, q c = false :=
    head?_false_of_dropWhile q u.reverse
  have h1 : v.reverse.dropWhile q = v.reverse := by
    refine dropWhile_eq_self_of_head? q v.reverse ?_
    intro c hc
    have hc' : v.reverse.head? = some c := Option.mem_def.mp hc
    obtain ⟨t, ht⟩ := hpre
    have hu_head : u.head? = some c := by
      rw [← ht, List.head?_append, hc']
      rfl
    exact hhead_u c (Option.mem_def.mpr hu_head)
  rw [h1, List.reverse_reverse, dropWhile_eq_self_of_head? q v hhead_v]

/-! ## Character class lemmas -/

theorem azLower_toNat {c : Char} (h : isAzLower c = true) :
    97 ≤ c.toNat ∧ c.toNat ≤ 122 := by
  simp only [isAzLower, Bool.and_eq_true, decide_eq_true_eq] at h
  obtain ⟨h1, h2⟩ := h
  rw [Char.le_def] at h1 h2
  exact ⟨h1, h2⟩

theorem normChar_cases {c : Char} (h : normChar c = true) :
    isAzLower c = true ∨ c = ' ' ∨ c = '-' := by
  simp only [normChar, Bool.or_eq_true, beq_iff_eq] at h
  tauto

theorem normChar_toLower {c : Char} (h : normChar c = true) :
    c.toLower = c := by
  rcases normChar_cases h with h | h | h
  · obtain ⟨h1, h2⟩ := azLower_toNat h
    unfold Char.toLower
    rw [if_neg]
    rintro ⟨ha, hb⟩
    omega
  · subst h; decide
  · subst h; decide

theorem normChar_not_digit {c : Char} (h : normChar c = true) :
    c.isDigit = false := by
  rcases normChar_cases h with h | h | h
  · obtain ⟨h1, h2⟩ := azLower_toNat h
    simp only [Char.isDigit, Bool.and_eq_false_iff, decide_eq_false_iff_not]
    right
    intro hle
    have h57 : c.toNat ≤ 57 := hle
    omega
  · subst h; decide
  · subst h; decide

theorem normChar_ne_paren {c : Char} (h : normChar c = true) :
    (c == '(') = false := by
  rcases normChar_cases h with h | h | h
  · obtain ⟨h1, h2⟩ := azLower_toNat h
    simp only [beq_eq_false_iff_ne, ne_eq]
    rintro rfl
    exact absurd h1 (by decide)
  · subst h; decide
  · subst h; decide

theorem normChar_special {c : Char} (h : normChar c = true) :
    (isAzLower c || isPySpace c || c == '-') = true := by
  rcases normChar_cases h with h | h | h
  · simp [h]
  · subst h; decide
  · subst h; decide

theorem normChar_ws_eq_space {c : Char} (h : normChar c = true)
    (hw : isPySpace c = true) : c = ' ' := by
  rcases normChar_cases h with h | h | h
  · obtain ⟨h1, h2⟩ := azLower_toNat h
    simp only [isPySpace, Bool.or_eq_true, beq_iff_eq] at hw
    rcases hw with ((((rfl | rfl) | rfl) | rfl) | rfl) | rfl <;>
      exact absurd h1 (by decide)
  · exact h
  · subst h
    exact absurd hw (by decide)

theorem map_eq_self_of_mem {f : Char → Char} :
    ∀ (l : List Char), (∀ c ∈ l, f c = c) → l.map f = l := by
  intro l
  induction l with
  | nil => intro _; rfl
  | cons c rest ih =>
    intro h
    simp only [List.map_cons, h c (List.mem_cons_self c rest),
      List.cons.injEq, true_and]
    exact ih (fun d hd => h d (List.mem_cons_of_mem c hd))

/-- The facts that hold of every normalized name: characters are lowercase
letters, spaces or hyphens; no two adjacent whitespace characters; no two
adjacent hyphens; stripping is a no-op. -/
theorem normalized_facts (x : String) (hx : ¬ x = "") :
    (∀ c ∈ (normalizeIngredientName x).toList, normChar c = true) ∧
    List.Chain' (fun a b => ¬(isPySpace a = true ∧ isPySpace b = true))
      (normalizeIngredientName x).toList ∧
    List.Chain' (fun a b => ¬((a == '-') = true ∧ (b == '-') = true))
      (normalizeIngredientName x).toList ∧
    pyStrip (normalizeIngredientName x).toList =
      (normalizeIngredientName x).toList := by
  have hyeq : (normalizeIngredientName x).toList =
      pyStrip (pySub hyphenRE ['-'] (pySub wsRE [' '] (pySub specialRE []
        (prepPass (pySub numberRE [] (pySub quantityRE []
          (pySub parenRE [] (x.toList.map Char.toLower)))))))) := by
    unfold normalizeIngredientName
    rw [if_neg hx]
    rfl
  set s5 := pySub specialRE [] (prepPass (pySub numberRE []
    (pySub quantityRE [] (pySub parenRE [] (x.toList.map Char.toLower)))))
    with hs5def
  have hs5 : ∀ c ∈ s5, (isAzLower c || isPySpace c || c == '-') = true := by
    intro c hc
    exact mem_pySub_specialRE _ none c hc
  have hs6col : pySub wsRE [' '] s5 = collapseRuns isPySpace ' ' s5 := by
    unfold pySub wsRE rws
    exact rsub_rplus_eq_collapseRuns isPySpace ' ' s5 none
  set s6 := pySub wsRE [' '] s5 with hs6def
  have hs6mem : ∀ c ∈ s6, normChar c = true := by
    intro c hc
    rw [hs6col] at hc
    rcases mem_collapseRuns isPySpace ' ' s5 c hc with rfl | ⟨hm, hws⟩
    · decide
    · have hg := hs5 c hm
      simp only [Bool.or_eq_true] at hg
      rcases hg with (haz | hws') | hhy
      · simp [normChar, haz]
      · rw [hws'] at hws; simp at hws
      · simp [normChar, hhy]
  have hs6chain : List.Chain' (fun a b => ¬(isPySpace a = true ∧ isPySpace b = true)) s6 := by
    rw [hs6col]
    exact chain'_collapseRuns isPySpace ' ' s5
  have hs7col : pySub hyphenRE ['-'] s6 = collapseRuns (fun c => c == '-') '-' s6 := by
    unfold pySub hyphenRE rchr
    exact rsub_rplus_eq_collapseRuns (fun c => c == '-') '-' s6 none
  set s7 := pySub hyphenRE ['-'] s6 with hs7def
  have hs7mem : ∀ c ∈ s7, normChar c = true := by
    intro c hc
    rw [hs7col] at hc
    rcases mem_collapseRuns _ '-' s6 c hc with rfl | ⟨hm, -⟩
    · decide
    · exact hs6mem c hm
  have hs7chainWs : List.Chain' (fun a b => ¬(isPySpace a = true ∧ isPySpace b = true)) s7 := by
    rw [hs7col]
    exact chain'_collapseRuns_other _ isPySpace '-' (by decide) s6 hs6chain
  have hs7chainHy : List.Chain' (fun a b => ¬((a == '-') = true ∧ (b == '-') = true)) s7 := by
    rw [hs7col]
    exact chain'_collapseRuns (fun c => c == '-') '-' s6
  rw [hyeq]
  refine ⟨?_, ?_, ?_, ?_⟩
  · intro c hc
    exact hs7mem c ((pyStrip_infix_self s7).sublist.subset hc)
  · exact hs7chainWs.infix (pyStrip_infix_self s7)
  · exact hs7chainHy.infix (pyStrip_infix_self s7)
  · exact pyStrip_idem s7

/-- C8 (amended): normalize_ingredient_name is idempotent on every input
whose normalized form is left unchanged by the preparation-descriptor
removal pass — equivalently, normalization can only fail to be idempotent
when punctuation or digits inside the input split a preparation word that
the character-stripping step later re-exposes. -/
theorem normalize_idempotent_of_prepPass_fixed (x : String)
    (h : prepPass (normalizeIngredientName x).toList =
      (normalizeIngredientName x).toList) :
    normalizeIngredientName (normalizeIngredientName x) =
      normalizeIngredientName x := by
  by_cases hx : x = ""
  · subst hx; rfl
  · obtain ⟨hmem, hchWs, hchHy, hstrip⟩ := normalized_facts x hx
    set y := normalizeIngredientName x with hy
    by_cases hy0 : y = ""
    · rw [hy0]; rfl
    · have e0 : y.toList.map Char.toLower = y.toList :=
        map_eq_self_of_mem y.toList (fun c hc => normChar_toLower (hmem c hc))
      have e1 : pySub parenRE [] y.toList = y.toList := by
        unfold pySub
        exact rsub_id_of_no_match parenRE [] normChar
          (fun p c rest hc => matchHere_parenRE_none p c rest
            (normChar_ne_paren hc)) y.toList none hmem
      have e2 : pySub quantityRE [] y.toList = y.toList := by
        unfold pySub
        exact rsub_id_of_no_match quantityRE [] normChar
          (fun p c rest hc => matchHere_quantityRE_none p c rest
            (normChar_not_digit hc)) y.toList none hmem
      have e3 : pySub numberRE [] y.toList = y.toList := by
        unfold pySub
        exact rsub_id_of_no_match numberRE [] normChar
          (fun p c rest hc => matchHere_numberRE_none p c rest
            (normChar_not_digit hc)) y.toList none hmem
      have e5 : pySub specialRE [] y.toList = y.toList := by
        unfold pySub
        exact rsub_id_of_no_match specialRE [] normChar
          (fun p c rest hc => matchHere_specialRE_neg p c rest
            (normChar_special hc)) y.toList none hmem
      have e6 : pySub wsRE [' '] y.toList = y.toList := by
        unfold pySub wsRE rws
        rw [rsub_rplus_eq_collapseRuns]
        exact collapseRuns_id isPySpace ' ' y.toList
          (fun c hc hw => normChar_ws_eq_space (hmem c hc) hw) hchWs
      have e7 : pySub hyphenRE ['-'] y.toList = y.toList := by
        unfold pySub hyphenRE rchr
        rw [rsub_rplus_eq_collapseRuns]
        exact collapseRuns_id (fun c => c == '-') '-' y.toList
          (fun c _ hh => by simpa using hh) hchHy
      show (if y = "" then "" else
        ⟨pyStrip (pySub hyphenRE ['-'] (pySub wsRE [' '] (pySub specialRE []
          (prepPass (pySub numberRE [] (pySub quantityRE []
            (pySub parenRE [] (y.toList.map Char.toLower))))))))⟩) = y
      rw [if_neg hy0, e0, e1, e2, e3, h, e5, e6, e7, hstrip]
      rcases y with ⟨yd⟩
      rfl

/-- Witness for the amended C8 at the concrete input "oil", whose
normalized form contains no preparation word. -/
theorem normalize_idempotent_of_prepPass_fixed_witness :
    prepPass (normalizeIngredientName "oil").toList =
      (normalizeIngredientName "oil").toList ∧
    normalizeIngredientName (normalizeIngredientName "oil") =
      normalizeIngredientName "oil" :=
  ⟨by set_option maxRecDepth 20000 in with_unfolding_all decide,
   normalize_idempotent_of_prepPass_fixed "oil"
     (by set_option maxRecDepth 20000 in with_unfolding_all decide)⟩

/-! ## Lemmas about the nutrition-projection dict operations -/

theorem find?_map_dset (kk k : String) (v : ℚ) (hne : (kk == k) = false) :
    ∀ d : DictQ,
      (d.map (fun p => if p.1 == kk then (kk, v) else p)).find?
          (fun p => p.1 == k) = d.find? (fun p => p.1 == k) := by
  intro d
  induction d with
  | nil => simp
  | cons p d' ih =>
    simp only [List.map_cons]
    by_cases hp : (p.1 == kk) = true
    · have hpk : p.1 = kk := by simpa using hp
      rw [if_pos hp]
      simp only [List.find?_cons, hpk, hne]
      exact ih
    · rw [if_neg hp]
      by_cases hpk : (p.1 == k) = true
      · simp only [List.find?_cons, hpk]
      · have hpk' : (p.1 == k) = false := by simpa using hpk
        simp only [List.find?_cons, hpk']
        exact ih

theorem find?_dset_ne (d : DictQ) (kk : String) (v : ℚ) (k : String)
    (hne : (kk == k) = false) :
    (dset d kk v).find? (fun p => p.1 == k) = d.find? (fun p => p.1 == k) := by
  unfold dset
  split_ifs with hm
  · exact find?_map_dset kk k v hne d
  · rw [List.find?_append]
    have hsing : List.find? (fun p => p.1 == k) [(kk, v)] = none := by
      simp [hne]
    rw [hsing]
    cases List.find? (fun p => p.1 == k) d <;> rfl

theorem applyAdjustment_find?_ne (share : ℚ) (nd : DictQ) (adj : String × ℚ)
    (k : String) (hk : ADJUSTABLE_NUTRIENTS.contains k = false) :
    (applyAdjustment share nd adj).find? (fun p => p.1 == k) =
      nd.find? (fun p => p.1 == k) := by
  have hne : ADJUSTABLE_NUTRIENTS.contains adj.1 = true →
      (adj.1 == k) = false := by
    intro hmem
    by_contra hcon
    have heq : adj.1 = k := by
      cases h : (adj.1 == k)
      · exact absurd h hcon
      · simpa using h
    rw [heq] at hmem
    rw [hmem] at hk
    exact absurd hk (by simp)
  simp only [applyAdjustment]
  split_ifs with h1 h2 h3 h4
  all_goals try rfl
  all_goals refine find?_dset_ne nd adj.1 _ k (hne ?_)
  all_goals simp_all

theorem foldl_find?_preserved {α : Type} (f : DictQ → α → DictQ)
    (k : String)
    (hf : ∀ d a, (f d a).find? (fun p => p.1 == k) =
      d.find? (fun p => p.1 == k)) :
    ∀ (l : List α) (d : DictQ),
      (l.foldl f d).find? (fun p => p.1 == k) =
        d.find? (fun p => p.1 == k) := by
  intro l
  induction l with
  | nil => intro d; rfl
  | cons a l' ih =>
    intro d
    simp only [List.foldl_cons]
    rw [ih (f d a), hf d a]

/-! ## Non-negativity lemmas -/

def nonNegDict (d : DictQ) : Prop := ∀ p ∈ d, 0 ≤ p.2

theorem dget_nonneg {d : DictQ} (h : nonNegDict d) (k : String) :
    0 ≤ dget d k 0 := by
  unfold dget
  cases hf : d.find? (fun p => p.1 == k) with
  | none => simp
  | some p =>
    have h2 := h p (List.mem_of_find?_eq_some hf)
    simpa using h2

theorem dset_nonneg {d : DictQ} (h : nonNegDict d) (k : String) {v : ℚ}
    (hv : 0 ≤ v) : nonNegDict (dset d k v) := by
  unfold dset
  split_ifs with hm
  · intro p hp
    obtain ⟨q, hq, hqp⟩ := List.mem_map.mp hp
    by_cases hqk : (q.1 == k) = true
    · rw [if_pos hqk] at hqp
      rw [← hqp]
      exact hv
    · rw [if_neg hqk] at hqp
      rw [← hqp]
      exact h q hq
  · intro p hp
    rcases List.mem_append.mp hp with hp | hp
    · exact h p hp
    · simp only [List.mem_singleton] at hp
      rw [hp]
      exact hv

theorem adjustmentMap_factors_nonneg :
    ∀ pr ∈ adjustmentMap, ∀ q ∈ pr.2, 0 ≤ q.2 := by
  have h : adjustmentMap.all
      (fun pr => pr.2.all (fun q => decide (0 ≤ q.2))) = true := by
    with_unfolding_all decide
  intro pr hpr q hq
  have h2 := (List.all_eq_true.mp h) pr hpr
  have h3 := (List.all_eq_true.mp h2) q hq
  simpa using h3

theorem getNutritionAdjustments_nonneg (name : String) :
    ∀ q ∈ getNutritionAdjustments name, 0 ≤ q.2 := by
  intro q hq
  unfold getNutritionAdjustments at hq
  simp only [] at hq
  cases hf : adjustmentMap.find?
      (fun p => strIn p.1 (normalizeIngredientName name)) with
  | some pr =>
    rw [hf] at hq
    exact adjustmentMap_factors_nonneg pr (List.mem_of_find?_eq_some hf) q hq
  | none =>
    rw [hf] at hq
    have hall : defaultAdjustments.all (fun q => decide (0 ≤ q.2)) = true := by
      with_unfolding_all decide
    have h3 := (List.all_eq_true.mp hall) q hq
    simpa using h3

theorem BASELINE_nonneg (k : String) : 0 ≤ dget BASELINE k 0 := by
  refine dget_nonneg ?_ k
  intro p hp
  have : BASELINE.all (fun q => decide (0 ≤ q.2)) = true := by
    with_unfolding_all decide
  have h3 := (List.all_eq_true.mp this) p hp
  simpa using h3

theorem applyAdjustment_nonneg (share : ℚ) (h0 : 0 ≤ share) (h1 : share ≤ 1)
    (nd : DictQ) (hnd : nonNegDict nd) (adj : String × ℚ)
    (hadj : 0 ≤ adj.2) :
    nonNegDict (applyAdjustment share nd adj) := by
  simp only [applyAdjustment]
  split_ifs with hc1 hc2 hc3 hc4
  all_goals try exact hnd
  · refine dset_nonneg hnd _ ?_
    have hb := BASELINE_nonneg adj.1
    positivity
  · refine dset_nonneg hnd _ ?_
    have hv : 0 ≤ dget nd adj.1 0 := dget_nonneg hnd adj.1
    nlinarith [mul_nonneg (mul_nonneg hv h0) hadj,
      mul_nonneg hv (sub_nonneg.mpr h1)]

theorem foldl_preserves_nonNeg {α : Type} (f : DictQ → α → DictQ)
    (l : List α) (hf : ∀ d a, a ∈ l → nonNegDict d → nonNegDict (f d a)) :
    ∀ d : DictQ, nonNegDict d → nonNegDict (l.foldl f d) := by
  induction l with
  | nil => intro d hd; exact hd
  | cons a l' ih =>
    intro d hd
    simp only [List.foldl_cons]
    exact ih (fun d' a' ha' hd' => hf d' a' (List.mem_cons_of_mem a ha') hd')
      (f d a) (hf d a (List.mem_cons_self a l') hd)

/-- C4: For every input nutrition dict and swap list,
`SwapEngine.estimate_nutrition_with_swaps` changes only the keys sugar,
sodium, saturated_fat, trans_fat, cholesterol and fiber; calories, protein,
carbs, fat and every other key keep their original entries in the returned
dict. -/
theorem estimate_nutrition_frame (nutrition : DictQ) (swaps : List SwapD)
    (total : ℕ) (k : String)
    (hk : ADJUSTABLE_NUTRIENTS.contains k = false) :
    (estimateNutritionWithSwaps nutrition swaps total).find?
        (fun p => p.1 == k) =
      nutrition.find? (fun p => p.1 == k) := by
  simp only [estimateNutritionWithSwaps]
  split_ifs with h
  · rfl
  · refine foldl_find?_preserved _ k ?_ (swaps.filter (·.accepted)) nutrition
    intro d a
    refine foldl_find?_preserved _ k ?_ (getNutritionAdjustments a.substituteName) d
    intro d' adj
    exact applyAdjustment_find?_ne _ d' adj k hk

/-- Witness for C4 at a concrete input: an accepted olive-oil swap leaves
the calories entry untouched. -/
theorem estimate_nutrition_frame_witness :
    ADJUSTABLE_NUTRIENTS.contains "calories" = false ∧
    (estimateNutritionWithSwaps
        [("calories", 100), ("saturated_fat", 10)]
        [⟨true, "olive oil"⟩] 3).find? (fun p => p.1 == "calories") =
      ([("calories", 100), ("saturated_fat", 10)] : DictQ).find?
        (fun p => p.1 == "calories") :=
  ⟨by with_unfolding_all decide,
   estimate_nutrition_frame [("calories", 100), ("saturated_fat", 10)]
     [⟨true, "olive oil"⟩] 3 "calories" (by with_unfolding_all decide)⟩

/-- C5: For every nutrition dict with non-negative values and every swap
list, every nutrient value returned by
`SwapEngine.estimate_nutrition_with_swaps` is non-negative. -/
theorem estimate_nutrition_nonneg (nutrition : DictQ) (swaps : List SwapD)
    (total : ℕ) (h : ∀ p ∈ nutrition, 0 ≤ p.2) :
    ∀ p ∈ estimateNutritionWithSwaps nutrition swaps total, 0 ≤ p.2 := by
  simp only [estimateNutritionWithSwaps]
  split_ifs with hemp
  · exact h
  · set accepted := swaps.filter (·.accepted) with haccepted
    set num := max total (max (accepted.length + 2) 3) with hnum
    have hnum3 : 3 ≤ num := le_max_of_le_right (le_max_right _ 3)
    have hnumpos : (0 : ℚ) < (num : ℚ) := by
      have : (3 : ℚ) ≤ (num : ℚ) := by exact_mod_cast hnum3
      linarith
    have hshare0 : 0 ≤ (1.0 : ℚ) / (num : ℚ) := by positivity
    have hshare1 : (1.0 : ℚ) / (num : ℚ) ≤ 1 := by
      rw [div_le_one hnumpos]
      have : (3 : ℚ) ≤ (num : ℚ) := by exact_mod_cast hnum3
      linarith
    refine foldl_preserves_nonNeg _ accepted ?_ nutrition h
    intro d a _ hd
    refine foldl_preserves_nonNeg _ (getNutritionAdjustments a.substituteName)
      ?_ d hd
    intro d' adj hadj hd'
    exact applyAdjustment_nonneg _ hshare0 hshare1 d' hd' adj
      (getNutritionAdjustments_nonneg a.substituteName adj hadj)

/-- Witness for C5 at a concrete input. -/
theorem estimate_nutrition_nonneg_witness :
    (∀ p ∈ ([("sugar", 10), ("fiber", 0)] : DictQ), 0 ≤ p.2) ∧
    ∀ p ∈ estimateNutritionWithSwaps [("sugar", 10), ("fiber", 0)]
        [⟨true, "lentils"⟩] 4, 0 ≤ p.2 :=
  ⟨by with_unfolding_all decide,
   estimate_nutrition_nonneg [("sugar", 10), ("fiber", 0)]
     [⟨true, "lentils"⟩] 4 (by with_unfolding_all decide)⟩

theorem mem_insertByRank (x y : SubstituteOptionM)
    (l : List SubstituteOptionM) :
    y ∈ insertByRank x l ↔ y = x ∨ y ∈ l := by
  induction l with
  | nil => simp [insertByRank]
  | cons a l ih =>
    simp only [insertByRank]
    split_ifs with h
    · simp [List.mem_cons]
    · simp only [List.mem_cons, ih]
      tauto

theorem mem_sortByRankDesc (y : SubstituteOptionM)
    (l : List SubstituteOptionM) :
    y ∈ sortByRankDesc l ↔ y ∈ l := by
  induction l with
  | nil => simp [sortByRankDesc]
  | cons a l ih =>
    simp only [sortByRankDesc, List.foldr_cons] at *
    rw [mem_insertByRank, ih, List.mem_cons]

theorem rankCandidate_name (env : SwapEnv) (onm : String)
    (om : List String) (s : ℚ) (c : String) (o : SubstituteOptionM)
    (h : rankCandidate env onm om s c = some o) : o.name = c := by
  unfold rankCandidate at h
  split_ifs at h
  cases h1 : env.calcSim onm c with
  | none =>
    rw [h1] at h
    cases h2 : env.profile c with
    | none => rw [h2] at h; exact Option.noConfusion h
    | some cp => rw [h2] at h; exact Option.noConfusion h
  | some fm =>
    rw [h1] at h
    cases h2 : env.profile c with
    | none => rw [h2] at h; exact Option.noConfusion h
    | some cp =>
      rw [h2] at h
      have h3 := Option.some.inj h
      rw [← h3]

theorem rankSubstitutes_length_le (env : SwapEnv) (cands : List String)
    (tf : FlavorProfileD) (s : ℚ) :
    (rankSubstitutes env cands tf s).length ≤ 5 := by
  simp only [rankSubstitutes]
  exact List.length_take_le 5 _

theorem rankSubstitutes_name_mem (env : SwapEnv) (cands : List String)
    (tf : FlavorProfileD) (s : ℚ) :
    ∀ o ∈ rankSubstitutes env cands tf s, o.name ∈ cands := by
  intro o ho
  simp only [rankSubstitutes] at ho
  have h1 := List.take_subset 5 _ ho
  have h2 := (mem_sortByRankDesc o _).mp h1
  split at h2
  · split at h2
    · obtain ⟨q, hq, hqo⟩ := List.mem_map.mp h2
      obtain ⟨c, hc, hsome⟩ := List.mem_filterMap.mp hq
      have hn := rankCandidate_name env _ _ _ c q hsome
      rw [← hqo]
      simpa [hn] using hc
    · obtain ⟨c, hc, hsome⟩ := List.mem_filterMap.mp h2
      have hn := rankCandidate_name env _ _ _ c o hsome
      rw [hn]; exact hc
  · obtain ⟨c, hc, hsome⟩ := List.mem_filterMap.mp h2
    have hn := rankCandidate_name env _ _ _ c o hsome
    rw [hn]; exact hc

/-- C3: For every risky ingredient name, flavor profile, current score and
recipe ingredient list, `SwapEngine.find_substitutes` returns at most 5
options, and no returned option has a normalized name equal to the
normalized name of the risky ingredient or of any recipe ingredient. -/
theorem find_substitutes_cap_and_exclusion (env : SwapEnv)
    (risky : String) (fp : FlavorProfileD) (chs : ℚ)
    (ri : Option (List String)) :
    (findSubstitutes env risky fp chs ri).length ≤ 5 ∧
    ∀ o ∈ findSubstitutes env risky fp chs ri,
      normalizeIngredientName o.name ≠ normalizeIngredientName risky ∧
      ∀ r ∈ ri.getD [],
        normalizeIngredientName o.name ≠ normalizeIngredientName r := by
  constructor
  · simp only [findSubstitutes]
    split_ifs
    · simp
    · exact rankSubstitutes_length_le env _ fp chs
  · intro o ho
    simp only [findSubstitutes] at ho
    split_ifs at ho with hcand
    · exact absurd ho (List.not_mem_nil o)
    · have hname := rankSubstitutes_name_mem env _ fp chs o ho
      obtain ⟨hmem, hpred⟩ := List.mem_filter.mp hname
      simp only [decide_eq_true_eq] at hpred
      obtain ⟨hp1, hp2⟩ := hpred
      refine ⟨hp1, ?_⟩
      intro r hr hEq
      apply hp2
      have hmm : normalizeIngredientName r ∈
          (ri.getD []).map normalizeIngredientName :=
        List.mem_map_of_mem _ hr
      rw [hEq]
      simpa using hmm

/-- Witness for C3 at a concrete environment and input. -/
theorem find_substitutes_cap_and_exclusion_witness :
    (findSubstitutes c3Env "butter" ⟨"butter", []⟩ 50
        (some ["milk"])).length ≤ 5 ∧
    ∀ o ∈ findSubstitutes c3Env "butter" ⟨"butter", []⟩ 50 (some ["milk"]),
      normalizeIngredientName o.name ≠ normalizeIngredientName "butter" ∧
      ∀ r ∈ (some ["milk"] : Option (List String)).getD [],
        normalizeIngredientName o.name ≠ normalizeIngredientName r :=
  find_substitutes_cap_and_exclusion c3Env "butter" ⟨"butter", []⟩ 50
    (some ["milk"])

theorem rankCandidate_rankScore (env : SwapEnv) (onm : String)
    (om : List String) (s : ℚ) (c : String) (o : SubstituteOptionM)
    (h : rankCandidate env onm om s c = some o) :
    o.rankScore = o.flavorMatch * env.flavorWeight +
      o.healthImprovement * env.healthWeight := by
  unfold rankCandidate at h
  split_ifs at h
  cases h1 : env.calcSim onm c with
  | none =>
    rw [h1] at h
    cases h2 : env.profile c with
    | none => rw [h2] at h; exact Option.noConfusion h
    | some cp => rw [h2] at h; exact Option.noConfusion h
  | some fm =>
    rw [h1] at h
    cases h2 : env.profile c with
    | none => rw [h2] at h; exact Option.noConfusion h
    | some cp =>
      rw [h2] at h
      have h3 := Option.some.inj h
      rw [← h3]

set_option maxRecDepth 40000 in
/-- C7 counterexample: with `use_semantic_rerank` enabled (the constructor
default) and the embedding backend unavailable
(`compute_similarity_scores` returning no scores), the returned rank score
keeps the reduced flavor weight 0.6 − semantic_weight = 0.5 set in
`__init__`; it does not revert to the no-semantic split 0.6/0.4.  For the
candidate "ghee" at flavor match 100 and health improvement 5 the score
is 52, while the claimed split would give 62. -/
theorem rank_substitutes_semantic_unavailable_counterexample :
    ((rankSubstitutes c7Env ["ghee"] ⟨"butter", []⟩ 50).map
      (fun o => (o.flavorMatch, o.healthImprovement, o.rankScore))) =
      [(100, 5, 52)] ∧
    ¬ ((52 : ℚ) = 100 * (6/10) + 5 * (4/10)) := by
  constructor
  · with_unfolding_all decide
  · with_unfolding_all decide

/-- C7 (amended): when the semantic embedding backend is unavailable while
`use_semantic_rerank` is enabled, semantic re-ranking is silently skipped,
and each candidate's rank score is the one computed in the ranking loop
with the constructor weights: flavor_match · (0.6 − semantic_weight) +
health_improvement · 0.4.  The flavor weight does not revert to 0.6. -/
theorem rank_substitutes_semantic_unavailable_weights (env : SwapEnv)
    (cands : List String) (tf : FlavorProfileD) (s : ℚ)
    (henv : env.useSemanticRerank = true)
    (hsem : ∀ a l, env.semantic a l = []) :
    ∀ o ∈ rankSubstitutes env cands tf s,
      o.rankScore = o.flavorMatch * (3/5 - env.semanticWeight) +
        o.healthImprovement * (2/5) := by
  intro o ho
  simp only [rankSubstitutes] at ho
  have h1 := List.take_subset 5 _ ho
  have h2 := (mem_sortByRankDesc o _).mp h1
  rw [hsem] at h2
  simp only [List.isEmpty_nil, Bool.not_true, Bool.false_eq_true,
    if_false, ite_self] at h2
  obtain ⟨c, hc, hsome⟩ := List.mem_filterMap.mp h2
  have hr := rankCandidate_rankScore env _ _ _ c o hsome
  rw [hr]
  have h06 : (0.6 : ℚ) = 3/5 := by with_unfolding_all decide
  have h04 : (0.4 : ℚ) = 2/5 := by with_unfolding_all decide
  simp only [SwapEnv.flavorWeight, SwapEnv.healthWeight, henv, if_true,
    h06, h04]

/-- Witness for the amended C7 theorem at a concrete environment. -/
theorem rank_substitutes_semantic_unavailable_weights_witness :
    c7Env.useSemanticRerank = true ∧
    ∀ o ∈ rankSubstitutes c7Env ["ghee"] ⟨"butter", []⟩ 50,
      o.rankScore = o.flavorMatch * (3/5 - c7Env.semanticWeight) +
        o.healthImprovement * (2/5) :=
  ⟨rfl, rank_substitutes_semantic_unavailable_weights c7Env ["ghee"]
    ⟨"butter", []⟩ 50 rfl (fun a l => rfl)⟩

/-- C9 (code bug): for one substitution at confidence 0.8 and nutrition
{cholesterol: 50, fiber: 4} with 4 ingredients, the fiber-increase line
writes through the leaked inner-loop variable `key` (= "cholesterol"):
cholesterol, first correctly reduced to 45, is overwritten with the
fiber-derived value 4.2, while fiber itself never increases. -/
theorem estimate_nutrition_changes_fiber_bug :
    estimateNutritionChanges [⟨4/5⟩] [("cholesterol", 50), ("fiber", 4)] 4 =
      [("cholesterol", 21/5), ("fiber", 4)] ∧
    ¬ dget ([("cholesterol", 50), ("fiber", 4)] : DictQ) "fiber" 0 <
        dget (estimateNutritionChanges [⟨4/5⟩]
          [("cholesterol", 50), ("fiber", 4)] 4) "fiber" 0 := by
  constructor
  · with_unfolding_all decide
  · with_unfolding_all decide


theorem isEmpty_false_of_ne_nil {α : Type} {l : List α} (h : l ≠ []) :
    l.isEmpty = false := by
  cases l with
  | nil => exact absurd rfl h
  | cons a t => rfl

theorem parseAgentResponse_parse_error (loads : String → Option JObj)
    (t : String) (tools : List String) (it : ℕ)
    (h : ∀ js, extractJson t.toList = some js →
      js = [] ∨ loads ⟨js⟩ = none) :
    (parseAgentResponse loads t tools it).dataCompleteness =
      "parse_error" := by
  cases he : extractJson t.toList with
  | none =>
    unfold parseAgentResponse
    rw [he]
  | some js =>
    unfold parseAgentResponse
    rw [he]
    rcases h js he with h1 | h1
    · subst h1
      rfl
    · simp only []
      cases hjs : js.isEmpty with
      | true => rfl
      | false => rw [h1]; rfl

theorem runFrom_max_partial (env : AgentEnv) :
    ∀ fuel iter tools,
      (∀ i, iter < i → i ≤ iter + fuel → toolRound (env.respond i)) →
      (runFrom env fuel iter tools).dataCompleteness = "partial" := by
  intro fuel
  induction fuel with
  | zero => intro iter tools h; rfl
  | succ n ih =>
    intro iter tools h
    obtain ⟨ps, hps, hne, hfc⟩ := h (iter + 1) (by omega) (by omega)
    have hpse := isEmpty_false_of_ne_nil hne
    have hfce := isEmpty_false_of_ne_nil hfc
    simp only [runFrom]
    rw [hps]
    simp only [hpse, hfce, Bool.false_eq_true, if_false]
    exact ih (iter + 1) _ (fun i a b => h i (by omega) (by omega))

theorem runFrom_parse_error (env : AgentEnv) :
    ∀ fuel iter tools k, iter < k → k ≤ iter + fuel →
      (∀ i, iter < i → i < k → toolRound (env.respond i)) →
      ∀ ps, env.respond k = .parts ps → ps ≠ [] →
        ps.filter isFuncCallPart = [] →
        (∀ js,
          extractJson (String.join (ps.filterMap partText)).toList =
            some js →
          js = [] ∨ env.loads ⟨js⟩ = none) →
        (runFrom env fuel iter tools).dataCompleteness =
          "parse_error" := by
  intro fuel
  induction fuel with
  | zero => intro iter tools k h1 h2 h3 ps hps hne hfc hun; omega
  | succ n ih =>
    intro iter tools k h1 h2 h3 ps hps hne hfc hun
    by_cases hk : k = iter + 1
    · subst hk
      have hpse := isEmpty_false_of_ne_nil hne
      have hfce : (ps.filter isFuncCallPart).isEmpty = true := by
        rw [hfc]; rfl
      simp only [runFrom]
      rw [hps]
      simp only [hpse, hfce, Bool.false_eq_true, if_false, if_true]
      exact parseAgentResponse_parse_error env.loads _ tools (iter + 1) hun
    · obtain ⟨qs, hqs, hqne, hqfc⟩ := h3 (iter + 1) (by omega) (by omega)
      have hqse := isEmpty_false_of_ne_nil hqne
      have hqfce := isEmpty_false_of_ne_nil hqfc
      simp only [runFrom]
      rw [hqs]
      simp only [hqse, hqfce, Bool.false_eq_true, if_false]
      exact ih (iter + 1) _ k (by omega) (by omega)
        (fun i a b => h3 i (by omega) b) ps hps hne hfc hun

theorem runFrom_break (env : AgentEnv) :
    ∀ fuel iter tools k, iter < k → k ≤ iter + fuel →
      (∀ i, iter < i → i < k → toolRound (env.respond i)) →
      env.respond k = .parts [] →
      (runFrom env fuel iter tools).dataCompleteness = "partial" ∧
      (runFrom env fuel iter tools).rawReasoning =
        some "Agent reached maximum iteration limit" ∧
      (runFrom env fuel iter tools).iterations = k := by
  intro fuel
  induction fuel with
  | zero => intro iter tools k h1 h2 h3 hps; omega
  | succ n ih =>
    intro iter tools k h1 h2 h3 hps
    by_cases hk : k = iter + 1
    · subst hk
      simp only [runFrom]
      rw [hps]
      exact ⟨rfl, rfl, rfl⟩
    · obtain ⟨qs, hqs, hqne, hqfc⟩ := h3 (iter + 1) (by omega) (by omega)
      have hqse := isEmpty_false_of_ne_nil hqne
      have hqfce := isEmpty_false_of_ne_nil hqfc
      simp only [runFrom]
      rw [hqs]
      simp only [hqse, hqfce, Bool.false_eq_true, if_false]
      exact ih (iter + 1) _ k (by omega) (by omega)
        (fun i a b => h3 i (by omega) b) hps

/-- C2: in `LLMSwapAgent.run`, (1) if the rounds before some iteration
k ≤ max_iterations all carry tool calls and round k is tool-call-less
with a text from which no JSON object can be obtained (extraction fails,
or yields an empty string, or `json.loads` rejects it), the returned
result has `data_completeness = "parse_error"`; (2) if every round up to
max_iterations carries tool calls, the returned result has
`data_completeness = "partial"`. -/
theorem agent_failure_states (env : AgentEnv) :
    (∀ k, 1 ≤ k → k ≤ env.maxIterations →
      (∀ i, 1 ≤ i → i < k → toolRound (env.respond i)) →
      ∀ ps, env.respond k = .parts ps → ps ≠ [] →
        ps.filter isFuncCallPart = [] →
        (∀ js,
          extractJson (String.join (ps.filterMap partText)).toList =
            some js →
          js = [] ∨ env.loads ⟨js⟩ = none) →
        (runAgent env).dataCompleteness = "parse_error") ∧
    ((∀ i, 1 ≤ i → i ≤ env.maxIterations → toolRound (env.respond i)) →
      (runAgent env).dataCompleteness = "partial") := by
  constructor
  · intro k hk1 hk2 h3 ps hps hne hfc hun
    exact runFrom_parse_error env env.maxIterations 0 [] k (by omega)
      (by omega) (fun i a b => h3 i (by omega) b) ps hps hne hfc hun
  · intro h
    exact runFrom_max_partial env env.maxIterations 0 []
      (fun i a b => h i (by omega) (by omega))

/-- Witness for C2 at concrete environments: a text-only non-JSON reply
gives "parse_error"; three straight tool-call rounds give "partial". -/
theorem agent_failure_states_witness :
    (runAgent c2EnvA).dataCompleteness = "parse_error" ∧
    (runAgent c2EnvB).dataCompleteness = "partial" :=
  ⟨(agent_failure_states c2EnvA).1 1 (by omega) (by decide)
      (fun i a b => absurd b (by omega)) [.text "no json here"] rfl
      (by simp) rfl
      (fun js h => by
        rw [show extractJson (String.join
            ([GPart.text "no json here"].filterMap partText)).toList = none
          from by decide] at h
        exact Option.noConfusion h),
   (agent_failure_states c2EnvB).2
     (fun i a b =>
       ⟨[.funcCall "search_flavor_compounds"], rfl, by simp, by decide⟩)⟩

/-- C10: if the rounds before some iteration k ≤ max_iterations all carry
tool calls and round k comes back with no candidates or no content parts,
`LLMSwapAgent.run` breaks out of the loop and returns
`data_completeness = "partial"` with raw_reasoning "Agent reached maximum
iteration limit" and `iterations = k` — even when k < max_iterations. -/
theorem agent_empty_response_partial (env : AgentEnv) (k : ℕ)
    (hk1 : 1 ≤ k) (hk2 : k ≤ env.maxIterations)
    (htool : ∀ i, 1 ≤ i → i < k → toolRound (env.respond i))
    (hempty : env.respond k = .parts []) :
    (runAgent env).dataCompleteness = "partial" ∧
    (runAgent env).rawReasoning =
      some "Agent reached maximum iteration limit" ∧
    (runAgent env).iterations = k :=
  runFrom_break env env.maxIterations 0 [] k (by omega) (by omega)
    (fun i a b => htool i (by omega) b) hempty

/-- Witness for C10: an empty first response ends the run at iteration 1,
strictly below the iteration ceiling of 5. -/
theorem agent_empty_response_partial_witness :
    1 < c10Env.maxIterations ∧
    ((runAgent c10Env).dataCompleteness = "partial" ∧
     (runAgent c10Env).rawReasoning =
       some "Agent reached maximum iteration limit" ∧
     (runAgent c10Env).iterations = 1) :=
  ⟨by decide,
   agent_empty_response_partial c10Env 1 (by omega) (by decide)
     (fun i a b => absurd b (by omega)) rfl⟩

end Epoch
